import Mathlib

/-!
Verification of the `no-array-for-each` ESLint rule
(src/rules/no-array-for-each.js) against its natural-language
specification.

The rule's own logic is transcribed into Lean definitions.  The external
collaborators the spec lists as out of scope (the syntax-tree traversal
engine, the scope/binding resolution service, raw source-text and token
access, and small helper utilities that live outside the rule's file) are
supplied as input data: every fact the rule reads from them is a field of
the input structures or an oracle function carried by the rule context.
-/

namespace NoArrayForEach

/-- ESTree node kinds the rule inspects (`node.type` strings in the source).
`Other` stands for every other node kind, which the rule never treats
specially. -/
inductive NodeType where
  | WhileStatement
  | DoWhileStatement
  | ForStatement
  | ForOfStatement
  | ForInStatement
  | IfStatement
  | WithStatement
  | ReturnStatement
  | FunctionDeclaration
  | FunctionExpression
  | ArrowFunctionExpression
  | ExpressionStatement
  | ChainExpression
  | BlockStatement
  | UpdateExpression
  | AssignmentExpression
  | Identifier
  | MemberExpression
  | CallExpression
  | RestElement
  | Program
  | Other
deriving DecidableEq, Repr

/-- The `continueAbleNodeTypes` set from the source (a JS `Set` of five
node-kind strings). -/
def continueAbleNodeTypes : List NodeType :=
  [NodeType.WhileStatement, NodeType.DoWhileStatement, NodeType.ForStatement,
   NodeType.ForOfStatement, NodeType.ForInStatement]

/-- A text edit produced by the ESLint fixer.  `remove`, `replaceText` and
`replaceTextRange` carry the source range they rewrite; `insertBefore` and
`insertAfter` carry the position of the token or node boundary they insert
at. -/
inductive FixOp where
  | replaceText (range : Nat × Nat) (text : String)
  | replaceTextRange (range : Nat × Nat) (text : String)
  | remove (range : Nat × Nat)
  | insertBefore (pos : Nat) (text : String)
  | insertAfter (pos : Nat) (text : String)
deriving DecidableEq, Repr

/-- The source range an edit touches; insertions are zero-width. -/
def FixOp.editRange : FixOp → Nat × Nat
  | .replaceText r _ => r
  | .replaceTextRange r _ => r
  | .remove r => r
  | .insertBefore p _ => (p, p)
  | .insertAfter p _ => (p, p)

/-- Two half-open source ranges overlap (share at least one position). -/
def rangesOverlap (a b : Nat × Nat) : Bool :=
  a.1 < b.2 && b.1 < a.2

/-- A patch contains two distinct edits whose ranges overlap. -/
def patchHasOverlappingEdits (ops : List FixOp) : Bool :=
  ops.any fun a => ops.any fun b => a != b && rangesOverlap a.editRange b.editRange

/-- Kinds of variable definitions reported by the resolution service
(`definition.type`). -/
inductive DefType where
  | Parameter
  | FunctionName
  | Other
deriving DecidableEq, Repr

/-- One definition of a resolved variable: its kind and the name of the
defining identifier (`definition.name.name`). -/
structure DefModel where
  type : DefType
  name : String
deriving DecidableEq, Repr

/-- One reference to a resolved variable, as the rule reads it: the kind of
the parent node of the referencing identifier and whether the identifier is
the parent assignment's left-hand side (`parent.left === node`). -/
structure ReferenceModel where
  parentType : NodeType
  isParentLeft : Bool
deriving DecidableEq, Repr

/-- A variable produced by `context.getDeclaredVariables(callbackFunction)`:
its definitions and references, as supplied by the external scope-resolution
service. -/
structure VariableModel where
  defs : List DefModel
  references : List ReferenceModel
deriving DecidableEq, Repr

/-- A lexical scope, represented by its chain of scope identifiers from the
scope itself (head) up to the root.  Pointer equality between scope objects
in the source corresponds to equality of chains (scope identifiers are
distinct). -/
abbrev Scope := List Nat

/-- A reference identifier collected during traversal
(`allIdentifiers`): its name and source range. -/
structure IdentifierModel where
  name : String
  range : Nat × Nat
deriving DecidableEq, Repr

/-- The slice of the ESLint rule context the transcribed functions consume:
the flat list of reference identifiers collected during traversal, and the
external `findVariable` resolution service, modelled as an oracle returning
the scope of the binding an identifier resolves to (`none` when no binding
is found). -/
structure RuleContext where
  allIdentifiers : List IdentifierModel
  resolveVariableScope : IdentifierModel → Option Scope

/-- Transcription of `isReturnStatementInContinueAbleNodes`.  The walk
`for (let node = returnStatement; node && node !== callbackFunction;
node = node.parent)` visits the return statement itself and then its
ancestors strictly below the callback function; `ancestorsToCallback` is
the list of those nodes' kinds, starting with the return statement's own
kind. -/
def isReturnStatementInContinueAbleNodes (ancestorsToCallback : List NodeType) : Bool :=
  ancestorsToCallback.any fun t => continueAbleNodeTypes.contains t

/-- The returned expression of a value-bearing `return`, as the fix reads
it: whether it is parenthesized in the source, the verdict of the
`should-add-parentheses-to-expression-statement-expression` helper
(an external utility: true exactly when the expression would be misparsed
at the start of an expression statement), and the end position of the
expression. -/
structure ReturnArgumentModel where
  isParenthesized : Bool
  shouldAddParenthesesToExpressionStatementExpression : Bool
  rangeEnd : Nat

/-- A `return` statement collected inside the callback, with every fact the
rule reads about it.  `ancestorsToCallback` lists the kinds of the nodes on
the parent chain from the return statement itself (head) up to, but
excluding, the callback function.  `needsSemicolon` is the external
`needs-semicolon` utility specialised to this statement's preceding token:
it receives the text that will follow that token and answers whether a
separating semicolon is required. -/
structure ReturnStmtModel where
  ancestorsToCallback : List NodeType
  parentType : NodeType
  isParentConsequent : Bool
  isParentAlternate : Bool
  isParentBody : Bool
  returnTokenRange : Nat × Nat
  argument : Option ReturnArgumentModel
  nextTokenPos : Nat
  nextTokenValue : String
  needsSemicolon : String → Bool
  hasSemicolonLastToken : Bool
  rangeEnd : Nat

/-- Transcription of `shouldSwitchReturnStatementToBlockStatement`: the
return statement is the consequent or alternate of an `if`, or the body of
a `with`. -/
def shouldSwitchReturnStatementToBlockStatement (r : ReturnStmtModel) : Bool :=
  match r.parentType with
  | NodeType.IfStatement => r.isParentConsequent || r.isParentAlternate
  | NodeType.WithStatement => r.isParentBody
  | _ => false

/-- Transcription of `isChildScope`: walk from `child` upward through
`upper` scopes looking for `parent`. -/
def isChildScope : Scope → Scope → Bool
  | [], _ => false
  | s :: rest, parent => (s :: rest : Scope) == parent || isChildScope rest parent

/-- The test applied to one collected identifier inside
`isFunctionParametersSafeToFix`: identifiers with a different name or
outside the checked range are skipped; a matching identifier blocks the fix
when `findVariable` finds nothing, or finds a binding whose scope is the
call site's scope or an ancestor of it (`isChildScope scope variable.scope`). -/
def identifierBlocksFix (ctx : RuleContext) (scope : Scope) (variableName : String)
    (arrayRange : Nat × Nat) (identifier : IdentifierModel) : Bool :=
  if identifier.name != variableName
      || identifier.range.1 < arrayRange.1
      || identifier.range.2 > arrayRange.2 then
    false
  else
    match ctx.resolveVariableScope identifier with
    | none => true
    | some variableScope => variableScope == scope || isChildScope scope variableScope

/-- Transcription of `isFunctionParametersSafeToFix`.  `arrayRange` is the
range passed as `array` by the caller (`isFixable` passes the whole call
expression).  Every declared variable must have exactly one definition;
for parameter definitions, no collected identifier with the parameter's
name inside `arrayRange` may block the fix. -/
def isFunctionParametersSafeToFix (ctx : RuleContext) (vars : List VariableModel)
    (scope : Scope) (arrayRange : Nat × Nat) : Bool :=
  vars.all fun v =>
    match v.defs with
    | [definition] =>
      if definition.type != DefType.Parameter then
        true
      else
        !(ctx.allIdentifiers.any (identifierBlocksFix ctx scope definition.name arrayRange))
    | _ => false

/-- Transcription of `isFunctionParameterVariableReassigned`: some declared
variable whose first definition is a parameter has a reference whose parent
is an update expression, or an assignment expression with the reference on
its left-hand side. -/
def isFunctionParameterVariableReassigned (vars : List VariableModel) : Bool :=
  (vars.filter fun v =>
      match v.defs with
      | d :: _ => d.type == DefType.Parameter
      | [] => false).any
    fun v =>
      v.references.any fun reference =>
        reference.parentType == NodeType.UpdateExpression
          || (reference.parentType == NodeType.AssignmentExpression && reference.isParentLeft)

/-- One formal parameter of the callback, as the rule reads it: its node
kind, whether it carries a type annotation, and its source text. -/
structure ParamModel where
  type : NodeType
  hasTypeAnnotation : Bool
  text : String

/-- One statement of the callback's block body (`callback.body.body`),
as `wrapInIfStatement` reads it: its source range and text. -/
structure StatementModel where
  range : Nat × Nat
  text : String

/-- The first argument of the matched call, together with the traversal
metadata `functionInfo.get(callback)` attached to it (collected return
statements and declaring scope) and every syntactic fact the rule reads
about it.  `selfUsedInside` is the verdict of the external
`is-function-self-used-inside` utility. -/
structure CallbackModel where
  type : NodeType
  async : Bool
  generator : Bool
  params : List ParamModel
  declaredVariables : List VariableModel
  bodyType : NodeType
  bodyRange : Nat × Nat
  bodyStartLine : Nat
  bodyEndLine : Nat
  bodyLastTokenRange : Nat × Nat
  bodyStatements : List StatementModel
  arrowTokenEnd : Nat
  closingParenTokens : List (Nat × Nat)
  returnStatements : List ReturnStmtModel
  scope : Scope
  selfUsedInside : Bool

/-- A call expression matched by the `forEach` call selector, with every
fact the rule reads about it and its surroundings.  `objectName` is the
receiver node's `.name` attribute: present exactly when the receiver is a
plain identifier.  `receiverStaticName` is the receiver's static dotted
name when it has one (used by the allowlist matcher).  `indentedString` is
the result of the external `get-indent-string` helper for the enclosing
statement. -/
structure CallExpressionModel where
  range : Nat × Nat
  optional : Bool
  calleeOptional : Bool
  isParenthesized : Bool
  parentType : NodeType
  parentRange : Nat × Nat
  arguments : List CallbackModel
  objectText : String
  objectParenthesized : Bool
  objectName : Option String
  receiverStaticName : Option String
  propertyRange : Nat × Nat
  scope : Scope
  penultimateTokenIsComma : Bool
  penultimateTokenRange : Nat × Nat
  lastTokenRange : Nat × Nat
  stmtLastTokenIsSemicolon : Bool
  stmtLastTokenRange : Nat × Nat
  indentedString : String

/-- Transcription of `isFixable`. -/
def isFixable (ctx : RuleContext) (callExpression : CallExpressionModel) : Bool :=
  if callExpression.optional
      || callExpression.isParenthesized
      || callExpression.arguments.length != 1 then
    false
  else if callExpression.parentType != NodeType.ExpressionStatement
      && callExpression.parentType != NodeType.ChainExpression then
    false
  else
    match callExpression.arguments with
    | [callback] =>
      if (callback.type != NodeType.FunctionExpression
            && callback.type != NodeType.ArrowFunctionExpression)
          || callback.async
          || callback.generator then
        false
      else if !(callback.params.length == 1 || callback.params.length == 2)
          || callback.params.any (fun p => p.type == NodeType.RestElement || p.hasTypeAnnotation)
          || !(isFunctionParametersSafeToFix ctx callback.declaredVariables
                callExpression.scope callExpression.range) then
        false
      else if callback.returnStatements.any
          (fun r => isReturnStatementInContinueAbleNodes r.ancestorsToCallback) then
        false
      else if callback.selfUsedInside then
        false
      else
        true
    | _ => false

/-- Split a character list at newline characters (the accumulator holds
the current line reversed). -/
def splitLinesAux : List Char → List Char → List String
  | [], acc => [String.mk acc.reverse]
  | c :: rest, acc =>
    if c == '\n' then
      String.mk acc.reverse :: splitLinesAux rest []
    else
      splitLinesAux rest (c :: acc)

/-- Model of the external `indent-string` npm package at the fixed call
shape `indentString(text, 1, \x7bindent: tab\x7d)` used by the rule: every
line that is not entirely whitespace is prefixed with one tab. -/
def indentStringOneTab (s : String) : String :=
  String.intercalate "\n"
    ((splitLinesAux s.data []).map fun line =>
      if line.data.all Char.isWhitespace then line else "\t" ++ line)

/-- JavaScript template-literal interpolation of a possibly-absent string
attribute: interpolating `undefined` yields the text `undefined`. -/
def jsTemplateInterpolate : Option String → String
  | some s => s
  | none => "undefined"

/-- Transcription of the `getForOfLoopHeadText` closure inside
`getFixFunction`. -/
def getForOfLoopHeadText (callExpression : CallExpressionModel)
    (callback : CallbackModel) : String :=
  let parameterTexts := callback.params.map fun p => p.text
  let elementText := parameterTexts.getD 0 ""
  let indexText := parameterTexts.getD 1 ""
  let useEntries := callback.params.length == 2
  let arrayText :=
    if callExpression.objectParenthesized then
      "(" ++ callExpression.objectText ++ ")"
    else
      callExpression.objectText
  "for ("
    ++ (if isFunctionParameterVariableReassigned callback.declaredVariables then "let" else "const")
    ++ " "
    ++ (if useEntries then "[" ++ indexText ++ ", " ++ elementText ++ "]" else elementText)
    ++ " of "
    ++ arrayText
    ++ (if useEntries then ".entries()" else "")
    ++ ") "

/-- Transcription of the `getForOfLoopHeadRange` closure: from the start of
the call expression to the start of a block body, or to the end of the
arrow token for an expression body. -/
def getForOfLoopHeadRange (callExpression : CallExpressionModel)
    (callback : CallbackModel) : Nat × Nat :=
  (callExpression.range.1,
   if callback.bodyType == NodeType.BlockStatement then
     callback.bodyRange.1
   else
     callback.arrowTokenEnd)

/-- Transcription of the `replaceReturnStatement` generator.  The
defensive `assertToken` call is a no-op on well-formed input and produces
no edit. -/
def replaceReturnStatement (r : ReturnStmtModel) : List FixOp :=
  match r.argument with
  | none => [FixOp.replaceText r.returnTokenRange "continue"]
  | some argument =>
    let shouldAddParentheses :=
      !argument.isParenthesized
        && argument.shouldAddParenthesesToExpressionStatementExpression
    let textBefore0 := if shouldAddParentheses then "(" else ""
    let textAfter := if shouldAddParentheses then ")" else ""
    let insertBraces := shouldSwitchReturnStatementToBlockStatement r
    let textBefore :=
      if insertBraces then
        "\x7b " ++ textBefore0
      else if r.needsSemicolon (if shouldAddParentheses then "(" else r.nextTokenValue) then
        ";" ++ textBefore0
      else
        textBefore0
    [FixOp.remove r.returnTokenRange]
      ++ (if textBefore != "" then [FixOp.insertBefore r.nextTokenPos textBefore] else [])
      ++ (if textAfter != "" then [FixOp.insertAfter argument.rangeEnd textAfter] else [])
      ++ (if !r.hasSemicolonLastToken then [FixOp.insertAfter r.rangeEnd ";"] else [])
      ++ [FixOp.insertAfter r.rangeEnd " continue;"]
      ++ (if insertBraces then [FixOp.insertAfter r.rangeEnd " \x7d"] else [])

/-- Transcription of the `shouldRemoveExpressionStatementLastToken`
closure. -/
def shouldRemoveExpressionStatementLastToken (callExpression : CallExpressionModel)
    (callback : CallbackModel) (tokenIsSemicolon : Bool) : Bool :=
  if !tokenIsSemicolon then
    false
  else if callback.bodyType != NodeType.BlockStatement && !callExpression.calleeOptional then
    false
  else
    true

/-- Transcription of the `wrapInIfStatement` generator: the guard text is
built from the receiver node's `.name` attribute by template
interpolation. -/
def wrapInIfStatement (callExpression : CallExpressionModel)
    (callback : CallbackModel) : List FixOp :=
  let isBlockStatement := callback.bodyType == NodeType.BlockStatement
  let isSingleLine := !isBlockStatement || callback.bodyStartLine == callback.bodyEndLine
  let indentedForOfClosingBracket :=
    if isSingleLine then "\x7d" else indentStringOneTab "\x7d"
  let isMultilineBlock := callback.bodyType == NodeType.BlockStatement && !isSingleLine
  [FixOp.insertBefore callExpression.range.1
      ("if (" ++ jsTemplateInterpolate callExpression.objectName ++ ") \x7b\n"),
   FixOp.insertAfter callExpression.range.2 ("\n" ++ callExpression.indentedString ++ "\x7d")]
    ++ (if callback.bodyType != NodeType.BlockStatement && isSingleLine then
          [FixOp.insertAfter callback.bodyRange.2 ";"]
        else [])
    ++ (if !isMultilineBlock then []
        else
          FixOp.replaceText callback.bodyLastTokenRange indentedForOfClosingBracket
            :: callback.bodyStatements.map fun st =>
                FixOp.replaceText st.range (indentStringOneTab st.text))

/-- Transcription of the `removeCallbackParentheses` generator: remove the
closing parenthesis tokens of a parenthesized callback. -/
def removeCallbackParentheses (callback : CallbackModel) : List FixOp :=
  callback.closingParenTokens.map fun token => FixOp.remove token

/-- Modelled from the spec: the repository's `fix/extend-fix-range`
helper is not under src/.  Per §4.5 the Edit Composer "widens the patch's
declared range" to the given range; the widening is realised as two
zero-width insertions at the range's endpoints. -/
def extendFixRange (range : Nat × Nat) : List FixOp :=
  [FixOp.insertBefore range.1 "", FixOp.insertAfter range.2 ""]

/-- Modelled from the spec: the repository's `fix/fix-space-around-keyword`
helper is not under src/ and the spec's Edit Composer description (§4.5)
lists no keyword-spacing edit, so it contributes no edit here. -/
def fixSpaceAroundKeyword (_callExpression : CallExpressionModel) : List FixOp :=
  []

/-- Model of `text.replace(/\s+$/, ...)` with the empty replacement:
drop all trailing whitespace. -/
def trimTrailingWhitespace (s : String) : String :=
  String.mk (s.data.reverse.dropWhile Char.isWhitespace).reverse

/-- Transcription of the fix generator returned by `getFixFunction`,
producing the ordered list of edits of the patch. -/
def getFixFunction (callExpression : CallExpressionModel) : List FixOp :=
  match callExpression.arguments with
  | [callback] =>
    let isOptionalChaining := callExpression.calleeOptional
    let isBlockStatement := callback.bodyType == NodeType.BlockStatement
    let indentedForOfLoopHeadText :=
      callExpression.indentedString
        ++ indentStringOneTab (getForOfLoopHeadText callExpression callback)
    let trimmedForOfLoopHeadText :=
      if isBlockStatement then indentedForOfLoopHeadText
      else trimTrailingWhitespace indentedForOfLoopHeadText
    [FixOp.replaceTextRange (getForOfLoopHeadRange callExpression callback)
        (if isOptionalChaining then trimmedForOfLoopHeadText
         else getForOfLoopHeadText callExpression callback)]
      ++ removeCallbackParentheses callback
      ++ (if callExpression.penultimateTokenIsComma then
            [FixOp.remove callExpression.penultimateTokenRange]
          else [])
      ++ [FixOp.remove callExpression.lastTokenRange]
      ++ (callback.returnStatements.map replaceReturnStatement).flatten
      ++ (if shouldRemoveExpressionStatementLastToken callExpression callback
              callExpression.stmtLastTokenIsSemicolon then
            [FixOp.remove callExpression.stmtLastTokenRange]
          else [])
      ++ fixSpaceAroundKeyword callExpression
      ++ (if isOptionalChaining then wrapInIfStatement callExpression callback else [])
      ++ extendFixRange callExpression.parentRange
  | _ => []

/-- The fixed allowlist `ignoredObjects` of receiver names. -/
def ignoredObjects : List String :=
  ["React.Children", "Children", "R", "pIteration"]

/-- Modelled from the spec: the repository's `is-node-matches` helper is
not under src/.  Per §4.1 the matcher "filters out calls whose receiver's
static name appears in a fixed allowlist": a receiver matches when its
static dotted name equals one of the listed names. -/
def isNodeMatches (receiverStaticName : Option String) (patterns : List String) : Bool :=
  match receiverStaticName with
  | some name => patterns.contains name
  | none => false

/-- The message identifier of the rule's single diagnostic. -/
def MESSAGE_ID : String := "no-array-for-each"

/-- A reported problem: the range of the node it is reported on
(`node.callee.property`, the method-name token), the message identifier,
and the optional patch. -/
structure Diagnostic where
  node : Nat × Nat
  messageId : String
  fix : Option (List FixOp)
deriving DecidableEq

/-- Transcription of the end-of-file behaviour of `create` on the matched
`forEach` calls, in document order: the call-selector handler skips calls
whose receiver matches `ignoredObjects` and collects the rest with their
scope, and the `Program:exit` handler emits one problem per collected call,
located at the method-name token, with a fix exactly when `isFixable`
accepts the call. -/
def create (ctx : RuleContext) (calls : List CallExpressionModel) : List Diagnostic :=
  (calls.filter fun callExpression =>
      !(isNodeMatches callExpression.receiverStaticName ignoredObjects)).map
    fun callExpression =>
      { node := callExpression.propertyRange
        messageId := MESSAGE_ID
        fix :=
          if isFixable ctx callExpression then
            some (getFixFunction callExpression)
          else
            none }

/-- Formalisation of claim C2 as stated (spec §4.2, capture bullet),
following the spec's words: some callback parameter name, referenced
outside the callback but within the textual range of the iterated-source
expression, resolves to a binding in a scope other than the callback's own
scope or one of its descendant scopes.  (A binding's scope is the callback's
scope or a descendant of it exactly when `isChildScope` reaches
`callbackScope` walking up from the binding's scope.) -/
def claimParameterCaptureUnsafe (ctx : RuleContext) (callbackScope : Scope)
    (callbackRange : Nat × Nat) (paramNames : List String)
    (iteratedSourceRange : Nat × Nat) : Bool :=
  ctx.allIdentifiers.any fun identifier =>
    paramNames.contains identifier.name
      && !(callbackRange.1 ≤ identifier.range.1 && identifier.range.2 ≤ callbackRange.2)
      && (iteratedSourceRange.1 ≤ identifier.range.1
            && identifier.range.2 ≤ iteratedSourceRange.2)
      && (match ctx.resolveVariableScope identifier with
          | some variableScope => !(isChildScope variableScope callbackScope)
          | none => false)

/-- The syntax tree handed to the rule by the external traversal engine:
a node identifier, the node's kind, and its children in document order. -/
inductive JsTree where
  | node (id : Nat) (type : NodeType) (children : List JsTree)

/-- A traversal visit: the engine fires `enter` on a node before its
children and `exit` after them. -/
inductive TraversalEvent where
  | enter (id : Nat) (type : NodeType)
  | exit (id : Nat) (type : NodeType)
deriving DecidableEq

/-- Node kinds matched by the `:function` esquery selector. -/
def isFunctionNodeType (t : NodeType) : Bool :=
  t == NodeType.FunctionDeclaration
    || t == NodeType.FunctionExpression
    || t == NodeType.ArrowFunctionExpression

mutual

/-- The document-order event sequence the traversal engine produces for a
subtree: enter the node, traverse the children in order, exit the node. -/
def JsTree.events : JsTree → List TraversalEvent
  | .node i ty cs =>
    TraversalEvent.enter i ty :: JsTree.eventsList cs ++ [TraversalEvent.exit i ty]

/-- Event sequence of a forest, in document order. -/
def JsTree.eventsList : List JsTree → List TraversalEvent
  | [] => []
  | t :: ts => t.events ++ JsTree.eventsList ts

end

mutual

/-- All node identifiers of a subtree, in document (preorder) order. -/
def JsTree.nodeIds : JsTree → List Nat
  | .node i _ cs => i :: JsTree.nodeIdsList cs

/-- All node identifiers of a forest, in document order. -/
def JsTree.nodeIdsList : List JsTree → List Nat
  | [] => []
  | t :: ts => t.nodeIds ++ JsTree.nodeIdsList ts

end

/-- The per-function metadata map built during traversal: each entered
function's node identifier is mapped to the node identifiers of the return
statements collected for it, in visit order (the `returnStatements` array
of the `functionInfo` JS `Map`; the `scope` component plays no part in the
stack discipline and is omitted). -/
abbrev InfoMap := List (Nat × List Nat)

/-- Model of `functionInfo.set(node, ...)` on function entry: bind the key to a
fresh empty return list, keeping insertion order. -/
def setInfo : InfoMap → Nat → InfoMap
  | [], i => [(i, [])]
  | (k, rs) :: m, i => if k = i then (i, []) :: m else (k, rs) :: setInfo m i

/-- Model of `functionInfo.get(f).returnStatements.push(r)`: append `r` to the list
bound to `f` (no effect when `f` is unbound, which the stack discipline
prevents). -/
def pushReturn : InfoMap → Nat → Nat → InfoMap
  | [], _, _ => []
  | (k, rs) :: m, f, r => if k = f then (k, rs ++ [r]) :: m else (k, rs) :: pushReturn m f r

/-- Model of `functionInfo.get`. -/
def lookupInfo : InfoMap → Nat → Option (List Nat)
  | [], _ => none
  | (k, rs) :: m, g => if k = g then some rs else lookupInfo m g

/-- The rule's traversal-time state: the function nesting stack (top last)
and the per-function metadata map. -/
structure TraversalState where
  functionStack : List Nat
  functionInfo : InfoMap

/-- Transcription of the traversal handlers of `create` that maintain the
nesting stack: `:function` pushes the entered function and installs fresh
metadata, `:function:exit` pops, and `:function ReturnStatement` (which the
engine fires on entering a return statement that has a function ancestor,
hence with a nonempty stack) records the return statement in the metadata
of the function on top of the stack
(`functionStack[functionStack.length - 1]`). -/
def visitNode (s : TraversalState) (e : TraversalEvent) : TraversalState :=
  match e with
  | TraversalEvent.enter i ty =>
    let s1 :=
      if isFunctionNodeType ty then
        { functionStack := s.functionStack ++ [i]
          functionInfo := setInfo s.functionInfo i }
      else s
    if ty == NodeType.ReturnStatement then
      match s1.functionStack.getLast? with
      | some f => { s1 with functionInfo := pushReturn s1.functionInfo f i }
      | none => s1
    else s1
  | TraversalEvent.exit _ ty =>
    if isFunctionNodeType ty then
      { s with functionStack := s.functionStack.dropLast }
    else s

/-- Run the traversal handlers over a whole file (a tree rooted at the
program node), starting from an empty stack and empty metadata. -/
def runRule (t : JsTree) : TraversalState :=
  (JsTree.events t).foldl visitNode { functionStack := [], functionInfo := [] }

mutual

/-- The intended attribution of return statements, stated directly on the
tree: walking a subtree with `cur` naming the nearest enclosing function of
the subtree's root, a return statement `r` is attributed to `cur`, and the
walk continues below with the subtree's own node as `cur` when it is a
function.  `(f, r) ∈ attsTree none t` therefore says exactly that `f` is
the immediately enclosing function of the return statement `r` in `t`. -/
def attsTree (cur : Option Nat) : JsTree → List (Nat × Nat)
  | .node i ty cs =>
    (if ty == NodeType.ReturnStatement then
       match cur with
       | some f => [(f, i)]
       | none => []
     else [])
      ++ attsList (if isFunctionNodeType ty then some i else cur) cs

/-- Forest version of `attsTree`. -/
def attsList (cur : Option Nat) : List JsTree → List (Nat × Nat)
  | [] => []
  | t :: ts => attsTree cur t ++ attsList cur ts

end

mutual

/-- The metadata map produced by replaying the enter events of a subtree on
an initial map, with `cur` the nearest enclosing function: mirrors
`visitNode` with the stack abstracted away. -/
def infoAfterTree (m : InfoMap) (cur : Option Nat) : JsTree → InfoMap
  | .node i ty cs =>
    let m1 := if isFunctionNodeType ty then setInfo m i else m
    let m2 :=
      if ty == NodeType.ReturnStatement then
        match cur with
        | some f => pushReturn m1 f i
        | none => m1
      else m1
    infoAfterList m2 (if isFunctionNodeType ty then some i else cur) cs

/-- Forest version of `infoAfterTree`. -/
def infoAfterList (m : InfoMap) (cur : Option Nat) : List JsTree → InfoMap
  | [] => m
  | t :: ts => infoAfterList (infoAfterTree m cur t) cur ts

end

/-- The identifier carried by an `enter` event. -/
def enterId : TraversalEvent → Option Nat
  | TraversalEvent.enter i _ => some i
  | TraversalEvent.exit _ _ => none

/-! Concrete call-site models used below to instantiate theorems.  Each
model spells out, field by field, the facts the external services would
report for the JavaScript source shown in its doc comment (0-based
character offsets, half-open ranges). -/

/-- Rule context for `a.b?.forEach(element => \x7b bar(element); \x7d);`:
reference identifiers `a` (0,1), `bar` (26,29), `element` (30,37); the
identifier `element` resolves to the callback scope `[1, 0]`, the others to
the enclosing scope `[0]`. -/
def optionalMemberContext : RuleContext where
  allIdentifiers :=
    [{ name := "a", range := (0, 1) },
     { name := "bar", range := (26, 29) },
     { name := "element", range := (30, 37) }]
  resolveVariableScope := fun identifier =>
    if identifier.name == "element" then some [1, 0] else some [0]

/-- The callback `element => \x7b bar(element); \x7d` of
`a.b?.forEach(...)`. -/
def optionalMemberCallback : CallbackModel where
  type := NodeType.ArrowFunctionExpression
  async := false
  generator := false
  params := [{ type := NodeType.Identifier, hasTypeAnnotation := false, text := "element" }]
  declaredVariables :=
    [{ defs := [{ type := DefType.Parameter, name := "element" }]
       references := [{ parentType := NodeType.CallExpression, isParentLeft := false }] }]
  bodyType := NodeType.BlockStatement
  bodyRange := (24, 41)
  bodyStartLine := 1
  bodyEndLine := 1
  bodyLastTokenRange := (40, 41)
  bodyStatements := [{ range := (26, 39), text := "bar(element);" }]
  arrowTokenEnd := 23
  closingParenTokens := []
  returnStatements := []
  scope := [1, 0]
  selfUsedInside := false

/-- Model of `a.b?.forEach(element => \x7b bar(element); \x7d);` — a
null-safe member invocation whose receiver `a.b` is a member expression,
not a plain identifier, so the receiver node has no `.name` attribute. -/
def optionalMemberCall : CallExpressionModel where
  range := (0, 42)
  optional := false
  calleeOptional := true
  isParenthesized := false
  parentType := NodeType.ChainExpression
  parentRange := (0, 42)
  arguments := [optionalMemberCallback]
  objectText := "a.b"
  objectParenthesized := false
  objectName := none
  receiverStaticName := some "a.b"
  propertyRange := (5, 12)
  scope := [0]
  penultimateTokenIsComma := false
  penultimateTokenRange := (40, 41)
  lastTokenRange := (41, 42)
  stmtLastTokenIsSemicolon := true
  stmtLastTokenRange := (42, 43)
  indentedString := ""

/-- Rule context for the two-line source
`foo?.forEach(x => \x7b` / tab `if (x) return;` / tab `bar(x);` / `\x7d);`:
reference identifiers `foo` (0,3), `x` (25,26), `bar` (37,40), `x` (41,42);
`x` resolves to the callback scope `[1, 0]`, the rest to `[0]`. -/
def optionalMultilineContext : RuleContext where
  allIdentifiers :=
    [{ name := "foo", range := (0, 3) },
     { name := "x", range := (25, 26) },
     { name := "bar", range := (37, 40) },
     { name := "x", range := (41, 42) }]
  resolveVariableScope := fun identifier =>
    if identifier.name == "x" then some [1, 0] else some [0]

/-- The `return;` statement on the second line of the multiline source:
`return` token (28,34), no argument, consequent of the `if`, inside the
callback's block. -/
def multilineReturnStmt : ReturnStmtModel where
  ancestorsToCallback :=
    [NodeType.ReturnStatement, NodeType.IfStatement, NodeType.BlockStatement]
  parentType := NodeType.IfStatement
  isParentConsequent := true
  isParentAlternate := false
  isParentBody := false
  returnTokenRange := (28, 34)
  argument := none
  nextTokenPos := 34
  nextTokenValue := ";"
  needsSemicolon := fun _ => false
  hasSemicolonLastToken := true
  rangeEnd := 35

/-- The callback of the multiline source: a block body spanning lines 1-4
with two statements, `if (x) return;` (21,35) and `bar(x);` (37,44). -/
def optionalMultilineCallback : CallbackModel where
  type := NodeType.ArrowFunctionExpression
  async := false
  generator := false
  params := [{ type := NodeType.Identifier, hasTypeAnnotation := false, text := "x" }]
  declaredVariables :=
    [{ defs := [{ type := DefType.Parameter, name := "x" }]
       references :=
         [{ parentType := NodeType.IfStatement, isParentLeft := false },
          { parentType := NodeType.CallExpression, isParentLeft := false }] }]
  bodyType := NodeType.BlockStatement
  bodyRange := (18, 46)
  bodyStartLine := 1
  bodyEndLine := 4
  bodyLastTokenRange := (45, 46)
  bodyStatements :=
    [{ range := (21, 35), text := "if (x) return;" },
     { range := (37, 44), text := "bar(x);" }]
  arrowTokenEnd := 17
  closingParenTokens := []
  returnStatements := [multilineReturnStmt]
  scope := [1, 0]
  selfUsedInside := false

/-- Model of the null-safe multiline call
`foo?.forEach(x => \x7b ... \x7d);` with a `return` inside the callback's
block body. -/
def optionalMultilineCall : CallExpressionModel where
  range := (0, 47)
  optional := false
  calleeOptional := true
  isParenthesized := false
  parentType := NodeType.ChainExpression
  parentRange := (0, 47)
  arguments := [optionalMultilineCallback]
  objectText := "foo"
  objectParenthesized := false
  objectName := some "foo"
  receiverStaticName := some "foo"
  propertyRange := (5, 12)
  scope := [0]
  penultimateTokenIsComma := false
  penultimateTokenRange := (45, 46)
  lastTokenRange := (46, 47)
  stmtLastTokenIsSemicolon := true
  stmtLastTokenRange := (47, 48)
  indentedString := ""

/-- Rule context for `foo.forEach(x => \x7b while (x) return; \x7d);`:
reference identifiers `foo` (0,3) and `x` (26,27); `x` resolves to the
callback scope `[1, 0]`, `foo` to `[0]`. -/
def whileReturnContext : RuleContext where
  allIdentifiers :=
    [{ name := "foo", range := (0, 3) },
     { name := "x", range := (26, 27) }]
  resolveVariableScope := fun identifier =>
    if identifier.name == "x" then some [1, 0] else some [0]

/-- The `return;` statement of `while (x) return;` inside the callback:
its strict ancestors up to the callback are the `while` statement and the
callback's block. -/
def whileReturnStmt : ReturnStmtModel where
  ancestorsToCallback :=
    [NodeType.ReturnStatement, NodeType.WhileStatement, NodeType.BlockStatement]
  parentType := NodeType.WhileStatement
  isParentConsequent := false
  isParentAlternate := false
  isParentBody := true
  returnTokenRange := (29, 35)
  argument := none
  nextTokenPos := 35
  nextTokenValue := ";"
  needsSemicolon := fun _ => false
  hasSemicolonLastToken := true
  rangeEnd := 36

/-- The callback `x => \x7b while (x) return; \x7d`. -/
def whileReturnCallback : CallbackModel where
  type := NodeType.ArrowFunctionExpression
  async := false
  generator := false
  params := [{ type := NodeType.Identifier, hasTypeAnnotation := false, text := "x" }]
  declaredVariables :=
    [{ defs := [{ type := DefType.Parameter, name := "x" }]
       references := [{ parentType := NodeType.WhileStatement, isParentLeft := false }] }]
  bodyType := NodeType.BlockStatement
  bodyRange := (17, 38)
  bodyStartLine := 1
  bodyEndLine := 1
  bodyLastTokenRange := (37, 38)
  bodyStatements := [{ range := (19, 36), text := "while (x) return;" }]
  arrowTokenEnd := 15
  closingParenTokens := []
  returnStatements := [whileReturnStmt]
  scope := [1, 0]
  selfUsedInside := false

/-- Model of `foo.forEach(x => \x7b while (x) return; \x7d);` — a plain
call whose callback contains a `return` nested in a `while` loop. -/
def whileReturnCall : CallExpressionModel where
  range := (0, 39)
  optional := false
  calleeOptional := false
  isParenthesized := false
  parentType := NodeType.ExpressionStatement
  parentRange := (0, 40)
  arguments := [whileReturnCallback]
  objectText := "foo"
  objectParenthesized := false
  objectName := some "foo"
  receiverStaticName := some "foo"
  propertyRange := (4, 11)
  scope := [0]
  penultimateTokenIsComma := false
  penultimateTokenRange := (37, 38)
  lastTokenRange := (38, 39)
  stmtLastTokenIsSemicolon := true
  stmtLastTokenRange := (39, 40)
  indentedString := ""

/-- Rule context for `foo.forEach(function (x, x) \x7b\x7d);`: the only
reference identifier is the receiver `foo` (0,3), resolving to the
enclosing scope `[0]`. -/
def duplicateParamContext : RuleContext where
  allIdentifiers := [{ name := "foo", range := (0, 3) }]
  resolveVariableScope := fun _ => some [0]

/-- The declared variables of the callback of
`foo.forEach(function (x, x) \x7b\x7d);`: in sloppy mode the duplicate
parameter yields one variable with two `Parameter` definitions and no
references. -/
def duplicateParamVariables : List VariableModel :=
  [{ defs :=
       [{ type := DefType.Parameter, name := "x" },
        { type := DefType.Parameter, name := "x" }]
     references := [] }]

/-- A value-bearing return statement `return a + b` (no trailing
semicolon) that is the consequent of an `if`, used to instantiate the
return-statement transformer: `return` token (10,16), argument `a + b`
(17,22), unparenthesized and not needing parentheses. -/
def valueReturnStmt : ReturnStmtModel where
  ancestorsToCallback :=
    [NodeType.ReturnStatement, NodeType.IfStatement, NodeType.BlockStatement]
  parentType := NodeType.IfStatement
  isParentConsequent := true
  isParentAlternate := false
  isParentBody := false
  returnTokenRange := (10, 16)
  argument := some
    { isParenthesized := false
      shouldAddParenthesesToExpressionStatementExpression := false
      rangeEnd := 22 }
  nextTokenPos := 17
  nextTokenValue := "a"
  needsSemicolon := fun _ => false
  hasSemicolonLastToken := false
  rangeEnd := 22

/-- A small program tree: a program node containing a function expression
whose block holds a return statement and a nested arrow function whose
block holds another return statement. -/
def sampleTree : JsTree :=
  JsTree.node 0 NodeType.Program
    [JsTree.node 1 NodeType.FunctionExpression
      [JsTree.node 2 NodeType.BlockStatement
        [JsTree.node 3 NodeType.ReturnStatement [],
         JsTree.node 4 NodeType.ArrowFunctionExpression
           [JsTree.node 5 NodeType.BlockStatement
             [JsTree.node 6 NodeType.ReturnStatement []]]]]]

/-- A two-parameter callback `(element, index) => bar(index, element)`
with an expression body, used to instantiate the loop-head synthesizer. -/
def entriesCallback : CallbackModel where
  type := NodeType.ArrowFunctionExpression
  async := false
  generator := false
  params :=
    [{ type := NodeType.Identifier, hasTypeAnnotation := false, text := "element" },
     { type := NodeType.Identifier, hasTypeAnnotation := false, text := "index" }]
  declaredVariables :=
    [{ defs := [{ type := DefType.Parameter, name := "element" }]
       references := [{ parentType := NodeType.CallExpression, isParentLeft := false }] },
     { defs := [{ type := DefType.Parameter, name := "index" }]
       references := [{ parentType := NodeType.CallExpression, isParentLeft := false }] }]
  bodyType := NodeType.CallExpression
  bodyRange := (30, 52)
  bodyStartLine := 1
  bodyEndLine := 1
  bodyLastTokenRange := (51, 52)
  bodyStatements := []
  arrowTokenEnd := 29
  closingParenTokens := []
  returnStatements := []
  scope := [1, 0]
  selfUsedInside := false

/-- The return list bound to a function in the metadata map, defaulting to
empty. -/
def lookupD (m : InfoMap) (g : Nat) : List Nat :=
  (lookupInfo m g).getD []

/-- Structural induction principle for forests of `JsTree`, recursing both
into the head node's children and into the tail. -/
def listInd {motive : List JsTree → Prop}
    (hnil : motive [])
    (hcons : ∀ i ty cs ts, motive cs → motive ts → motive (JsTree.node i ty cs :: ts)) :
    ∀ cs, motive cs
  | [] => hnil
  | JsTree.node i ty cs :: ts => hcons i ty cs ts (listInd hnil hcons cs) (listInd hnil hcons ts)
termination_by cs => sizeOf cs

/-! Theorems. -/

/-- C3: refuted as stated, exhibiting the code's divergence.  The call
`a.b?.forEach(element => \x7b bar(element); \x7d);` is a fixable null-safe
call site, yet the generated guard is the literal text `if (undefined)` —
built from the absent `.name` attribute of the member-expression receiver —
and no edit of the patch checks the receiver `a.b`, so the synthesized loop
is unreachable instead of skipping exactly when the receiver is absent. -/
theorem optional_fix_guard_is_undefined :
    isFixable optionalMemberContext optionalMemberCall = true
    ∧ FixOp.insertBefore 0 "if (undefined) \x7b\n" ∈ getFixFunction optionalMemberCall
    ∧ FixOp.insertBefore 0 ("if (" ++ optionalMemberCall.objectText ++ ") \x7b\n")
        ∉ getFixFunction optionalMemberCall := by
  decide

/-- C8: refuted as stated, exhibiting the code's divergence.  For the
fixable null-safe call `foo?.forEach(x => \x7b ... \x7d);` with a multiline
block body containing `if (x) return;`, the generated patch contains both
the return-statement edit on the `return` token (28,34) and the
re-indentation edit replacing the whole statement (21,35) that contains it,
two distinct edits with overlapping ranges. -/
theorem optional_multiline_patch_edits_overlap :
    isFixable optionalMultilineContext optionalMultilineCall = true
    ∧ FixOp.replaceText (28, 34) "continue" ∈ getFixFunction optionalMultilineCall
    ∧ FixOp.replaceText (21, 35) "\tif (x) return;" ∈ getFixFunction optionalMultilineCall
    ∧ rangesOverlap (28, 34) (21, 35) = true
    ∧ patchHasOverlappingEdits (getFixFunction optionalMultilineCall) = true := by
  decide

/-- C2, counterexample: for `foo.forEach(function (x, x) \x7b\x7d);` the
parameter-safety analysis rejects the call site (the duplicate parameter
makes one declared variable carry two definitions), while the claim's
stated rejection condition is false — no identifier with a parameter's
name is referenced at all, inside or outside the iterated-source
expression `foo` (0,3).  The claim's "exactly when" therefore fails. -/
theorem parameter_safety_not_exactly_capture_condition :
    isFunctionParametersSafeToFix duplicateParamContext duplicateParamVariables [0] (0, 31)
      = false
    ∧ claimParameterCaptureUnsafe duplicateParamContext [1, 0] (12, 30) ["x"] (0, 3)
      = false := by
  decide

/-- Characterisation of the per-identifier test of the parameter-safety
analysis. -/
theorem identifierBlocksFix_eq_true_iff (ctx : RuleContext) (scope : Scope)
    (variableName : String) (arrayRange : Nat × Nat) (identifier : IdentifierModel) :
    identifierBlocksFix ctx scope variableName arrayRange identifier = true ↔
      identifier.name = variableName
      ∧ arrayRange.1 ≤ identifier.range.1
      ∧ identifier.range.2 ≤ arrayRange.2
      ∧ (ctx.resolveVariableScope identifier = none
         ∨ ∃ vs, ctx.resolveVariableScope identifier = some vs
             ∧ (vs = scope ∨ isChildScope scope vs = true)) := by
  unfold identifierBlocksFix
  rcases h : ctx.resolveVariableScope identifier with _ | vs <;>
    simp [h, Bool.or_eq_true, bne_iff_ne, not_or, not_lt, and_assoc, beq_iff_eq]

/-- C2 (amended): the parameter-safety analysis rejects a call site exactly
when some variable declared by the callback has a number of definitions
other than one, or some parameter's name has a collected reference
identifier lying within the textual range of the whole `forEach` call
expression (not merely of the iterated-source expression) that either
fails to resolve to any binding or resolves to a binding whose scope is
the call site's enclosing scope or an ancestor of that scope; identifiers
outside the call expression's range do not affect the decision. -/
theorem parameter_safety_rejection_characterisation (ctx : RuleContext)
    (vars : List VariableModel) (scope : Scope) (arrayRange : Nat × Nat) :
    isFunctionParametersSafeToFix ctx vars scope arrayRange = false ↔
      (∃ v ∈ vars, v.defs.length ≠ 1) ∨
      (∃ v ∈ vars, ∃ d, v.defs = [d] ∧ d.type = DefType.Parameter ∧
        ∃ identifier ∈ ctx.allIdentifiers,
          identifier.name = d.name
          ∧ arrayRange.1 ≤ identifier.range.1
          ∧ identifier.range.2 ≤ arrayRange.2
          ∧ (ctx.resolveVariableScope identifier = none
             ∨ ∃ vs, ctx.resolveVariableScope identifier = some vs
                 ∧ (vs = scope ∨ isChildScope scope vs = true))) := by
  unfold isFunctionParametersSafeToFix
  rw [List.all_eq_false]
  constructor
  · rintro ⟨v, hv, hfalse⟩
    rcases hdefs : v.defs with _ | ⟨d, _ | _⟩
    · exact Or.inl ⟨v, hv, by simp [hdefs]⟩
    · by_cases hty : d.type = DefType.Parameter
      · refine Or.inr ⟨v, hv, d, hdefs, hty, ?_⟩
        rw [hdefs] at hfalse
        simp [hty] at hfalse
        rcases hfalse with ⟨identifier, hid, hblock⟩
        exact ⟨identifier, hid, (identifierBlocksFix_eq_true_iff _ _ _ _ _).mp hblock⟩
      · rw [hdefs] at hfalse
        simp [hty] at hfalse
    · exact Or.inl ⟨v, hv, by simp [hdefs]⟩
  · rintro (⟨v, hv, hlen⟩ | ⟨v, hv, d, hdefs, hty, identifier, hid, hprops⟩)
    · refine ⟨v, hv, ?_⟩
      rcases hdefs : v.defs with _ | ⟨d, _ | _⟩ <;> simp_all
    · refine ⟨v, hv, ?_⟩
      rw [hdefs]
      simp [hty]
      exact ⟨identifier, hid, (identifierBlocksFix_eq_true_iff _ _ _ _ _).mpr hprops⟩

/-- Two strings starting with the mutable and the immutable loop-head
prefix are never equal. -/
theorem no_let_const_clash (t u : String) : ("for (let " ++ t) ≠ ("for (const " ++ u) := by
  intro h
  have h2 : ("for (let " ++ t).data = ("for (const " ++ u).data := by rw [h]
  simp only [String.data_append] at h2
  simp only [List.cons_append, List.cons.injEq] at h2
  exact absurd h2.2.2.2.2.2.1 (by decide)

/-- C4: for a fixable call site, the synthesized loop head binds the sole
parameter's text when the callback has one parameter; with two parameters
it binds the destructured pair `[index, element]` — the inverse of the
callback's `(element, index)` parameter order — and the iterated
expression gains an `.entries()` call; in both cases the iterated source
expression's text is reproduced verbatim, re-wrapped in grouping
parentheses exactly when it was parenthesized in the original source. -/
theorem loop_head_text_shape (ce : CallExpressionModel) (cb : CallbackModel) :
    (∀ p, cb.params = [p] →
      getForOfLoopHeadText ce cb =
        "for ("
          ++ (if isFunctionParameterVariableReassigned cb.declaredVariables
              then "let" else "const")
          ++ " " ++ p.text ++ " of "
          ++ (if ce.objectParenthesized
              then "(" ++ ce.objectText ++ ")" else ce.objectText)
          ++ ") ")
    ∧ (∀ p q, cb.params = [p, q] →
        getForOfLoopHeadText ce cb =
          "for ("
            ++ (if isFunctionParameterVariableReassigned cb.declaredVariables
                then "let" else "const")
            ++ " [" ++ q.text ++ ", " ++ p.text ++ "] of "
            ++ (if ce.objectParenthesized
                then "(" ++ ce.objectText ++ ")" else ce.objectText)
            ++ ".entries()) ") := by
  constructor
  · intro p hp
    apply String.ext
    simp [getForOfLoopHeadText, hp, List.append_assoc]
  · intro p q hpq
    apply String.ext
    simp [getForOfLoopHeadText, hpq, List.append_assoc]

/-- Witness for C4: instantiates both parameter shapes on concrete
callbacks. -/
theorem loop_head_text_shape_witness :
    whileReturnCallback.params =
      [{ type := NodeType.Identifier, hasTypeAnnotation := false, text := "x" }]
    ∧ getForOfLoopHeadText whileReturnCall whileReturnCallback = "for (const x of foo) "
    ∧ entriesCallback.params =
        [{ type := NodeType.Identifier, hasTypeAnnotation := false, text := "element" },
         { type := NodeType.Identifier, hasTypeAnnotation := false, text := "index" }]
    ∧ getForOfLoopHeadText whileReturnCall entriesCallback
        = "for (const [index, element] of foo.entries()) " := by
  refine ⟨rfl, ?_, rfl, ?_⟩
  · have h := (loop_head_text_shape whileReturnCall whileReturnCallback).1
      { type := NodeType.Identifier, hasTypeAnnotation := false, text := "x" } rfl
    rw [h]
    decide
  · have h := (loop_head_text_shape whileReturnCall entriesCallback).2
      { type := NodeType.Identifier, hasTypeAnnotation := false, text := "element" }
      { type := NodeType.Identifier, hasTypeAnnotation := false, text := "index" } rfl
    rw [h]
    decide

/-- C5: for every return statement collected in a fixable callback, a
value-less return is replaced by the keyword `continue` verbatim; a
value-bearing return has its `return` keyword removed, a closing grouping
parenthesis inserted after the expression exactly when the expression is
unparenthesized and would otherwise be misparsed as a new statement, a
statement separator prefixed exactly when the separator oracle requires
one (checked only when no block is inserted), `continue` appended, a
statement terminator inserted before it exactly when the original return
lacked one; and when the return is the sole statement-form branch of an
`if` (consequent or alternate) or the body of a `with`, the replacement is
additionally wrapped in a block. -/
theorem return_statement_rewrite (r : ReturnStmtModel) :
    (r.argument = none →
      replaceReturnStatement r = [FixOp.replaceText r.returnTokenRange "continue"])
    ∧ (∀ a, r.argument = some a →
        (FixOp.remove r.returnTokenRange ∈ replaceReturnStatement r)
        ∧ ((FixOp.insertAfter a.rangeEnd ")" ∈ replaceReturnStatement r)
            ↔ (!a.isParenthesized
                && a.shouldAddParenthesesToExpressionStatementExpression) = true)
        ∧ (shouldSwitchReturnStatementToBlockStatement r = false →
            ((FixOp.insertBefore r.nextTokenPos
                (";" ++ (if (!a.isParenthesized
                              && a.shouldAddParenthesesToExpressionStatementExpression)
                         then "(" else ""))
                ∈ replaceReturnStatement r)
              ↔ r.needsSemicolon
                  (if (!a.isParenthesized
                        && a.shouldAddParenthesesToExpressionStatementExpression)
                   then "(" else r.nextTokenValue) = true))
        ∧ (shouldSwitchReturnStatementToBlockStatement r = true →
            (FixOp.insertBefore r.nextTokenPos
                ("\x7b " ++ (if (!a.isParenthesized
                                  && a.shouldAddParenthesesToExpressionStatementExpression)
                             then "(" else ""))
              ∈ replaceReturnStatement r)
            ∧ FixOp.insertAfter r.rangeEnd " \x7d" ∈ replaceReturnStatement r)
        ∧ (shouldSwitchReturnStatementToBlockStatement r = false →
            FixOp.insertAfter r.rangeEnd " \x7d" ∉ replaceReturnStatement r)
        ∧ ((FixOp.insertAfter r.rangeEnd ";" ∈ replaceReturnStatement r)
            ↔ r.hasSemicolonLastToken = false)
        ∧ FixOp.insertAfter r.rangeEnd " continue;" ∈ replaceReturnStatement r) := by
  constructor
  · intro h
    simp [replaceReturnStatement, h]
  · intro a ha
    cases hpq : (!a.isParenthesized && a.shouldAddParenthesesToExpressionStatementExpression)
    · cases hb : shouldSwitchReturnStatementToBlockStatement r
        <;> cases hs : r.hasSemicolonLastToken
        <;> cases hn : r.needsSemicolon r.nextTokenValue
        <;> simp [replaceReturnStatement, ha, hpq, hb, hs, hn]
    · cases hb : shouldSwitchReturnStatementToBlockStatement r
        <;> cases hs : r.hasSemicolonLastToken
        <;> cases hn : r.needsSemicolon "("
        <;> simp [replaceReturnStatement, ha, hpq, hb, hs, hn]

/-- Witness for C5: the value-bearing return `return a + b` (no trailing
semicolon) that is the consequent of an `if`: the `return` token is
removed, the replacement is block-wrapped, and `continue` is appended with
a terminator inserted first. -/
theorem return_statement_rewrite_witness :
    valueReturnStmt.argument = some
      { isParenthesized := false
        shouldAddParenthesesToExpressionStatementExpression := false
        rangeEnd := 22 }
    ∧ FixOp.remove (10, 16) ∈ replaceReturnStatement valueReturnStmt
    ∧ FixOp.insertBefore 17 "\x7b " ∈ replaceReturnStatement valueReturnStmt
    ∧ FixOp.insertAfter 22 ";" ∈ replaceReturnStatement valueReturnStmt
    ∧ FixOp.insertAfter 22 " continue;" ∈ replaceReturnStatement valueReturnStmt
    ∧ FixOp.insertAfter 22 " \x7d" ∈ replaceReturnStatement valueReturnStmt := by
  have h := (return_statement_rewrite valueReturnStmt).2
    { isParenthesized := false
      shouldAddParenthesesToExpressionStatementExpression := false
      rangeEnd := 22 } rfl
  refine ⟨rfl, h.1, ?_, ?_, h.2.2.2.2.2.2, ?_⟩
  · have hb := h.2.2.2.1 (by decide)
    simpa using hb.1
  · exact h.2.2.2.2.2.1.mpr rfl
  · exact (h.2.2.2.1 (by decide)).2

/-- Characterisation of `isFunctionParameterVariableReassigned`. -/
theorem isFunctionParameterVariableReassigned_iff (vars : List VariableModel) :
    isFunctionParameterVariableReassigned vars = true ↔
      ∃ v ∈ vars,
        (∃ d, v.defs.head? = some d ∧ d.type = DefType.Parameter)
        ∧ ∃ ref ∈ v.references,
            ref.parentType = NodeType.UpdateExpression
            ∨ (ref.parentType = NodeType.AssignmentExpression ∧ ref.isParentLeft = true) := by
  unfold isFunctionParameterVariableReassigned
  rw [List.any_eq_true]
  constructor
  · rintro ⟨v, hv, href⟩
    rw [List.mem_filter] at hv
    obtain ⟨hv1, hv2⟩ := hv
    refine ⟨v, hv1, ?_, ?_⟩
    · rcases hd : v.defs with _ | ⟨d, rest⟩
      · rw [hd] at hv2; simp at hv2
      · rw [hd] at hv2
        simp only [beq_iff_eq] at hv2
        exact ⟨d, by simp [hd], hv2⟩
    · rcases List.any_eq_true.mp href with ⟨ref, hr, hcond⟩
      refine ⟨ref, hr, ?_⟩
      simpa using hcond
  · rintro ⟨v, hv, ⟨d, hd, hdty⟩, ref, hr, hcond⟩
    refine ⟨v, ?_, ?_⟩
    · rw [List.mem_filter]
      refine ⟨hv, ?_⟩
      rcases hds : v.defs with _ | ⟨d0, rest⟩
      · rw [hds] at hd; simp at hd
      · rw [hds] at hd
        simp at hd
        subst hd
        simp [hdty]
    · refine List.any_eq_true.mpr ⟨ref, hr, ?_⟩
      rcases hcond with h | ⟨h1, h2⟩ <;> simp [*]

/-- The loop-head text decomposed into its binding-keyword prefix and the
rest. -/
theorem loop_head_split (ce : CallExpressionModel) (cb : CallbackModel) :
    getForOfLoopHeadText ce cb =
      (if isFunctionParameterVariableReassigned cb.declaredVariables
       then "for (let " else "for (const ")
      ++ ((if cb.params.length == 2
           then "[" ++ (cb.params.map fun p => p.text).getD 1 "" ++ ", "
                  ++ (cb.params.map fun p => p.text).getD 0 "" ++ "]"
           else (cb.params.map fun p => p.text).getD 0 "")
          ++ " of "
          ++ (if ce.objectParenthesized then "(" ++ ce.objectText ++ ")" else ce.objectText)
          ++ (if cb.params.length == 2 then ".entries()" else "")
          ++ ") ") := by
  cases hre : isFunctionParameterVariableReassigned cb.declaredVariables <;>
    · apply String.ext
      simp [getForOfLoopHeadText, hre, List.append_assoc]

/-- C7: the synthesized loop head starts with the mutable binding keyword
`let` exactly when some reference to one of the callback's parameter
variables is the operand of an update expression or the direct left-hand
side of an assignment expression, and with the immutable keyword `const`
exactly otherwise. -/
theorem loop_head_uses_let_iff (ce : CallExpressionModel) (cb : CallbackModel) :
    ((∃ t, getForOfLoopHeadText ce cb = "for (let " ++ t) ↔
      ∃ v ∈ cb.declaredVariables,
        (∃ d, v.defs.head? = some d ∧ d.type = DefType.Parameter)
        ∧ ∃ ref ∈ v.references,
            ref.parentType = NodeType.UpdateExpression
            ∨ (ref.parentType = NodeType.AssignmentExpression ∧ ref.isParentLeft = true))
    ∧ ((∃ t, getForOfLoopHeadText ce cb = "for (const " ++ t) ↔
        ¬ ∃ v ∈ cb.declaredVariables,
          (∃ d, v.defs.head? = some d ∧ d.type = DefType.Parameter)
          ∧ ∃ ref ∈ v.references,
              ref.parentType = NodeType.UpdateExpression
              ∨ (ref.parentType = NodeType.AssignmentExpression ∧ ref.isParentLeft = true)) := by
  rw [loop_head_split]
  cases hre : isFunctionParameterVariableReassigned cb.declaredVariables
  · simp only [Bool.false_eq_true, if_false]
    constructor
    · constructor
      · rintro ⟨t, ht⟩
        exact absurd ht.symm (no_let_const_clash t _)
      · intro hc
        have h := (isFunctionParameterVariableReassigned_iff cb.declaredVariables).mpr hc
        simp [hre] at h
    · constructor
      · intro _ hc
        have h := (isFunctionParameterVariableReassigned_iff cb.declaredVariables).mpr hc
        simp [hre] at h
      · intro _
        exact ⟨_, rfl⟩
  · simp only [if_true]
    constructor
    · constructor
      · intro _
        exact (isFunctionParameterVariableReassigned_iff cb.declaredVariables).mp hre
      · intro _
        exact ⟨_, rfl⟩
    · constructor
      · rintro ⟨t, ht⟩
        exact absurd ht (no_let_const_clash _ _)
      · intro hc
        exact absurd ((isFunctionParameterVariableReassigned_iff cb.declaredVariables).mp hre) hc

/-- Witness for C7: the callback of the `while`-return call never
reassigns its parameter, and its loop head indeed starts with `const`. -/
theorem loop_head_uses_let_iff_witness :
    ∃ t, getForOfLoopHeadText whileReturnCall whileReturnCallback = "for (const " ++ t := by
  exact (loop_head_uses_let_iff whileReturnCall whileReturnCallback).2.mpr (by decide)

/-- Counting diagnostics whose location is a fixed call's method-name
token, given pairwise distinct method-name token ranges. -/
theorem countP_key_eq (calls : List CallExpressionModel) (ce : CallExpressionModel)
    (q : CallExpressionModel → Bool)
    (hmem : ce ∈ calls) (hnodup : (calls.map fun c => c.propertyRange).Nodup) :
    calls.countP (fun c => (c.propertyRange == ce.propertyRange) && q c)
      = if q ce then 1 else 0 := by
  induction calls with
  | nil => cases hmem
  | cons c rest ih =>
    have h1 : c.propertyRange ∉ rest.map fun x => x.propertyRange := by
      have h := hnodup
      simp only [List.map_cons, List.nodup_cons] at h
      exact h.1
    have h2 : (rest.map fun x => x.propertyRange).Nodup := by
      have h := hnodup
      simp only [List.map_cons, List.nodup_cons] at h
      exact h.2
    rw [List.countP_cons]
    rcases List.mem_cons.mp hmem with heq | hmem2
    · subst heq
      have hzero : rest.countP (fun x => (x.propertyRange == ce.propertyRange) && q x) = 0 := by
        rw [List.countP_eq_zero]
        intro a ha
        simp only [Bool.and_eq_true, beq_iff_eq, not_and]
        intro hr _
        apply h1
        rw [← hr]
        exact List.mem_map_of_mem _ ha
      rw [hzero]
      simp
    · have hne : ¬ ((c.propertyRange == ce.propertyRange) && q c) = true := by
        simp only [Bool.and_eq_true, beq_iff_eq, not_and]
        intro hr _
        apply h1
        rw [hr]
        exact List.mem_map_of_mem _ hmem2
      rw [ih hmem2 h2]
      simp [hne]

/-- The number of diagnostics located at a matched call's method-name
token: zero when the receiver matches the allowlist, one otherwise. -/
theorem create_count_at (ctx : RuleContext) (calls : List CallExpressionModel)
    (ce : CallExpressionModel)
    (hmem : ce ∈ calls) (hnodup : (calls.map fun c => c.propertyRange).Nodup) :
    (create ctx calls).countP (fun d => d.node == ce.propertyRange)
      = if isNodeMatches ce.receiverStaticName ignoredObjects then 0 else 1 := by
  unfold create
  rw [List.countP_map]
  rw [show ((fun d => d.node == ce.propertyRange) ∘ fun callExpression =>
      ({ node := callExpression.propertyRange, messageId := MESSAGE_ID,
         fix := if isFixable ctx callExpression
                then some (getFixFunction callExpression) else none } : Diagnostic))
      = fun c => c.propertyRange == ce.propertyRange from rfl]
  rw [List.countP_filter]
  rw [countP_key_eq calls ce _ hmem hnodup]
  cases h : isNodeMatches ce.receiverStaticName ignoredObjects <;> simp [h]

/-- Every diagnostic located at a matched call's method-name token carries
the rule's message identifier and a fix exactly when `isFixable` accepts
the call. -/
theorem create_diag_at (ctx : RuleContext) (calls : List CallExpressionModel)
    (ce : CallExpressionModel)
    (hmem : ce ∈ calls) (hnodup : (calls.map fun c => c.propertyRange).Nodup) :
    ∀ d ∈ create ctx calls, d.node = ce.propertyRange →
      d.messageId = MESSAGE_ID
      ∧ d.fix = (if isFixable ctx ce then some (getFixFunction ce) else none) := by
  intro d hd hrange
  unfold create at hd
  rcases List.mem_map.mp hd with ⟨c, hc, rfl⟩
  have hcmem := (List.mem_filter.mp hc).1
  have hre : c.propertyRange = ce.propertyRange := hrange
  have hceq : c = ce := List.inj_on_of_nodup_map hnodup hcmem hmem hre
  subst hceq
  exact ⟨rfl, rfl⟩

/-- C1: for every matched `forEach` call in a file (with method-name
token ranges pairwise distinct), exactly one diagnostic is emitted at the
method-name token when the receiver's static name is not in the allowlist
and none when it is; every diagnostic at that location carries the rule's
message identifier and a patch exactly when the fixability analysis
accepts the call site — so every fixability failure still yields the
diagnostic, just without a patch. -/
theorem matched_call_reported (ctx : RuleContext) (calls : List CallExpressionModel)
    (ce : CallExpressionModel)
    (hmem : ce ∈ calls) (hnodup : (calls.map fun c => c.propertyRange).Nodup) :
    ((create ctx calls).countP (fun d => d.node == ce.propertyRange)
      = if isNodeMatches ce.receiverStaticName ignoredObjects then 0 else 1)
    ∧ (∀ d ∈ create ctx calls, d.node = ce.propertyRange →
        d.messageId = MESSAGE_ID
        ∧ (d.fix.isSome ↔ isFixable ctx ce = true)
        ∧ d.fix = (if isFixable ctx ce then some (getFixFunction ce) else none)) := by
  refine ⟨create_count_at ctx calls ce hmem hnodup, ?_⟩
  intro d hd hrange
  obtain ⟨hmsg, hfix⟩ := create_diag_at ctx calls ce hmem hnodup d hd hrange
  refine ⟨hmsg, ?_, hfix⟩
  rw [hfix]
  cases h : isFixable ctx ce <;> simp [h]

/-- Witness for C1: the single-call file `foo.forEach(x => \x7b while (x)
return; \x7d);` gets exactly one diagnostic, at the `forEach` token, with
the fix decided by `isFixable`. -/
theorem matched_call_reported_witness :
    whileReturnCall ∈ [whileReturnCall]
    ∧ ((create whileReturnContext [whileReturnCall]).countP
        (fun d => d.node == whileReturnCall.propertyRange) = 1)
    ∧ ∀ d ∈ create whileReturnContext [whileReturnCall],
        d.node = whileReturnCall.propertyRange →
          d.messageId = MESSAGE_ID
          ∧ d.fix = (if isFixable whileReturnContext whileReturnCall
                     then some (getFixFunction whileReturnCall) else none) := by
  have h := matched_call_reported whileReturnContext [whileReturnCall] whileReturnCall
    (by simp) (by simp)
  exact ⟨by simp, h.1, fun d hd hr => ⟨(h.2 d hd hr).1, (h.2 d hd hr).2.2⟩⟩

/-- C6: if some return statement of the callback has, strictly between
itself and the callback function, an ancestor that is a `while`,
`do-while`, `for`, `for-of` or `for-in` statement, the call site is
classified unfixable, and (when its receiver is not allowlisted) it is
still reported by exactly one diagnostic, which carries no patch. -/
theorem return_in_loop_reported_without_patch (ctx : RuleContext)
    (calls : List CallExpressionModel) (ce : CallExpressionModel)
    (cb : CallbackModel) (r : ReturnStmtModel)
    (hmem : ce ∈ calls)
    (hnodup : (calls.map fun c => c.propertyRange).Nodup)
    (hargs : ce.arguments = [cb])
    (hr : r ∈ cb.returnStatements)
    (hloop : (r.ancestorsToCallback.drop 1).any
        (fun ty => continueAbleNodeTypes.contains ty) = true)
    (hnotIgnored : isNodeMatches ce.receiverStaticName ignoredObjects = false) :
    isFixable ctx ce = false
    ∧ (create ctx calls).countP (fun d => d.node == ce.propertyRange) = 1
    ∧ ∀ d ∈ create ctx calls, d.node = ce.propertyRange → d.fix = none := by
  have hany : cb.returnStatements.any
      (fun s => isReturnStatementInContinueAbleNodes s.ancestorsToCallback) = true := by
    refine List.any_eq_true.mpr ⟨r, hr, ?_⟩
    unfold isReturnStatementInContinueAbleNodes
    rcases List.any_eq_true.mp hloop with ⟨ty, hty, hc⟩
    exact List.any_eq_true.mpr ⟨ty, List.mem_of_mem_drop hty, hc⟩
  have hfix : isFixable ctx ce = false := by
    simp [isFixable, hargs, hany]
  refine ⟨hfix, ?_, ?_⟩
  · have h := create_count_at ctx calls ce hmem hnodup
    rw [hnotIgnored] at h
    simpa using h
  · intro d hd hrange
    have h := (create_diag_at ctx calls ce hmem hnodup d hd hrange).2
    rw [hfix] at h
    simpa using h

/-- Witness for C6: the `while`-return call is unfixable and its
diagnostic carries no patch. -/
theorem return_in_loop_reported_without_patch_witness :
    isFixable whileReturnContext whileReturnCall = false
    ∧ ∀ d ∈ create whileReturnContext [whileReturnCall],
        d.node = whileReturnCall.propertyRange → d.fix = none := by
  have h := return_in_loop_reported_without_patch whileReturnContext [whileReturnCall]
    whileReturnCall whileReturnCallback whileReturnStmt (by simp) (by simp) rfl
    (by simp [whileReturnCallback]) (by decide) rfl
  exact ⟨h.1, h.2.2⟩

/-- C10: for every null-safe call site handed to the fix generator, the
guard's condition text is the template interpolation of the receiver
node's `.name` attribute; in particular, when the receiver is not a plain
identifier the generated guard condition is the literal text
`undefined`. -/
theorem guard_condition_from_name_attribute (ce : CallExpressionModel)
    (cb : CallbackModel)
    (hargs : ce.arguments = [cb]) (hopt : ce.calleeOptional = true) :
    FixOp.insertBefore ce.range.1
        ("if (" ++ jsTemplateInterpolate ce.objectName ++ ") \x7b\n")
      ∈ getFixFunction ce
    ∧ (ce.objectName = none →
        FixOp.insertBefore ce.range.1 "if (undefined) \x7b\n" ∈ getFixFunction ce) := by
  have hmem : FixOp.insertBefore ce.range.1
      ("if (" ++ jsTemplateInterpolate ce.objectName ++ ") \x7b\n") ∈ getFixFunction ce := by
    simp only [getFixFunction, hargs, hopt]
    simp [wrapInIfStatement]
  refine ⟨hmem, ?_⟩
  intro hname
  simpa [hname, jsTemplateInterpolate] using hmem

/-- Witness for C10: the member-expression receiver `a.b` has no `.name`
attribute and its guard condition is the literal `undefined`. -/
theorem guard_condition_from_name_attribute_witness :
    optionalMemberCall.objectName = none
    ∧ FixOp.insertBefore 0 "if (undefined) \x7b\n" ∈ getFixFunction optionalMemberCall := by
  have h := guard_condition_from_name_attribute optionalMemberCall optionalMemberCallback
    rfl rfl
  exact ⟨rfl, h.2 rfl⟩

/-- Looking up after `setInfo`: the set key maps to a fresh empty list,
other keys are untouched. -/
theorem lookupInfo_setInfo (m : InfoMap) (i g : Nat) :
    lookupInfo (setInfo m i) g = if g = i then some [] else lookupInfo m g := by
  induction m with
  | nil =>
    by_cases h : g = i
    · simp [setInfo, lookupInfo, h]
    · have h2 : ¬ i = g := fun hh => h hh.symm
      simp [setInfo, lookupInfo, h, h2]
  | cons e rest ih =>
    obtain ⟨k, rs⟩ := e
    by_cases hki : k = i
    · by_cases hkg : k = g
      · have hgi : g = i := hkg.symm.trans hki
        simp [setInfo, lookupInfo, hki, hkg, hgi]
      · have hgi : ¬ g = i := fun h => hkg (hki.trans h.symm)
        have hig : ¬ i = g := fun h => hkg (hki.trans h)
        simp [setInfo, lookupInfo, hki, hkg, hgi, hig]
    · by_cases hkg : k = g
      · have hgi : ¬ g = i := fun h => hki (hkg.trans h)
        simp [setInfo, lookupInfo, hki, hkg, hgi]
      · simp [setInfo, lookupInfo, hki, hkg, ih]

/-- Lemma: `pushReturn` leaves other keys untouched. -/
theorem lookupInfo_pushReturn_ne (m : InfoMap) (f i g : Nat) (h : g ≠ f) :
    lookupInfo (pushReturn m f i) g = lookupInfo m g := by
  induction m with
  | nil => simp [pushReturn]
  | cons e rest ih =>
    obtain ⟨k, rs⟩ := e
    by_cases hkf : k = f
    · have hkg : ¬ k = g := fun he => h (he.symm.trans hkf)
      have hfg : ¬ f = g := fun he => h he.symm
      simp [pushReturn, lookupInfo, hkf, hkg, hfg]
    · by_cases hkg : k = g <;> simp [pushReturn, lookupInfo, hkf, hkg, h, ih]

/-- Lemma: `pushReturn` appends to the list bound to an existing key. -/
theorem lookupInfo_pushReturn_self (m : InfoMap) (f i : Nat) (rs : List Nat)
    (h : lookupInfo m f = some rs) :
    lookupInfo (pushReturn m f i) f = some (rs ++ [i]) := by
  induction m with
  | nil => simp [lookupInfo] at h
  | cons e rest ih =>
    obtain ⟨k, ks⟩ := e
    by_cases hkf : k = f
    · simp [lookupInfo, hkf] at h
      simp [pushReturn, lookupInfo, hkf, h]
    · simp [lookupInfo, hkf] at h
      simp [pushReturn, lookupInfo, hkf, ih h]

/-- Lemma: `pushReturn` on an unbound key is the identity. -/
theorem lookupInfo_pushReturn_none (m : InfoMap) (f i : Nat)
    (h : lookupInfo m f = none) :
    pushReturn m f i = m := by
  induction m with
  | nil => simp [pushReturn]
  | cons e rest ih =>
    obtain ⟨k, ks⟩ := e
    by_cases hkf : k = f
    · simp [lookupInfo, hkf] at h
    · simp [lookupInfo, hkf] at h
      simp [pushReturn, hkf, ih h]

/-- Anything recorded after a `pushReturn` was already recorded or is the
pushed pair. -/
theorem mem_lookupD_pushReturn (m : InfoMap) (f i g r : Nat)
    (h : r ∈ lookupD (pushReturn m f i) g) :
    r ∈ lookupD m g ∨ (g = f ∧ r = i) := by
  by_cases hgf : g = f
  · subst hgf
    rcases hl : lookupInfo m g with _ | rs
    · rw [lookupD, lookupInfo_pushReturn_none m g i hl, ← lookupD] at h
      exact Or.inl h
    · rw [lookupD, lookupInfo_pushReturn_self m g i rs hl] at h
      simp at h
      rcases h with h | h
      · exact Or.inl (by simp [lookupD, hl, h])
      · exact Or.inr ⟨rfl, h⟩
  · rw [lookupD, lookupInfo_pushReturn_ne m f i g hgf, ← lookupD] at h
    exact Or.inl h

/-- Lemma: `pushReturn` never removes a recorded return. -/
theorem mem_lookupD_pushReturn_mono (m : InfoMap) (f i g r : Nat)
    (h : r ∈ lookupD m g) :
    r ∈ lookupD (pushReturn m f i) g := by
  by_cases hgf : g = f
  · subst hgf
    rcases hl : lookupInfo m g with _ | rs
    · simp [lookupD, hl] at h
    · rw [lookupD, lookupInfo_pushReturn_self m g i rs hl]
      simp [lookupD, hl] at h
      simp [h]
  · rw [lookupD, lookupInfo_pushReturn_ne m f i g hgf, ← lookupD]
    exact h

/-- Lemma: `pushReturn` neither adds nor removes keys. -/
theorem lookupInfo_pushReturn_none_iff (m : InfoMap) (f i g : Nat) :
    lookupInfo (pushReturn m f i) g = none ↔ lookupInfo m g = none := by
  by_cases hgf : g = f
  · subst hgf
    rcases hl : lookupInfo m g with _ | rs
    · rw [lookupInfo_pushReturn_none m g i hl]
      simp [hl]
    · rw [lookupInfo_pushReturn_self m g i rs hl]
      simp [hl]
  · rw [lookupInfo_pushReturn_ne m f i g hgf]

/-- Folding the traversal handlers over a forest's events restores the
function stack and transforms the metadata map exactly as the
stack-free replay `infoAfterList` does, with the current nearest
enclosing function read from the top of the stack. -/
theorem foldl_eventsList (cs : List JsTree) :
    ∀ s : TraversalState,
      (JsTree.eventsList cs).foldl visitNode s
        = ⟨s.functionStack,
           infoAfterList s.functionInfo s.functionStack.getLast? cs⟩ := by
  induction cs using listInd with
  | hnil =>
    intro s
    rfl
  | hcons i ty cs ts ihcs ihts =>
    intro s
    rw [show JsTree.eventsList (JsTree.node i ty cs :: ts)
        = TraversalEvent.enter i ty
            :: ((JsTree.eventsList cs ++ [TraversalEvent.exit i ty])
                  ++ JsTree.eventsList ts) from by
      simp [JsTree.eventsList, JsTree.events]]
    rw [List.foldl_cons, List.foldl_append, List.foldl_append]
    by_cases hfn : isFunctionNodeType ty = true
    · have hret : ¬ (ty == NodeType.ReturnStatement) = true := by
        rcases ty <;> simp_all [isFunctionNodeType]
      have henter : visitNode s (TraversalEvent.enter i ty)
          = ⟨s.functionStack ++ [i], setInfo s.functionInfo i⟩ := by
        simp [visitNode, hfn, hret]
      rw [henter, ihcs]
      rw [show List.foldl visitNode
          (⟨s.functionStack ++ [i],
            infoAfterList (setInfo s.functionInfo i)
              ((s.functionStack ++ [i]).getLast?) cs⟩ : TraversalState)
          [TraversalEvent.exit i ty]
          = ⟨s.functionStack,
             infoAfterList (setInfo s.functionInfo i)
               ((s.functionStack ++ [i]).getLast?) cs⟩ from by
        simp [visitNode, hfn]]
      rw [ihts]
      simp [infoAfterList, infoAfterTree, hfn, hret, List.getLast?_concat]
    · have henter : visitNode s (TraversalEvent.enter i ty)
          = ⟨s.functionStack,
             if (ty == NodeType.ReturnStatement) = true then
               match s.functionStack.getLast? with
               | some f => pushReturn s.functionInfo f i
               | none => s.functionInfo
             else s.functionInfo⟩ := by
        by_cases hret : (ty == NodeType.ReturnStatement) = true
        · rcases hlast : s.functionStack.getLast? with _ | f <;>
            simp [visitNode, hfn, hret, hlast]
        · simp [visitNode, hfn, hret]
      rw [henter, ihcs]
      rw [show ∀ m2 : InfoMap, List.foldl visitNode
          (⟨s.functionStack, m2⟩ : TraversalState) [TraversalEvent.exit i ty]
          = ⟨s.functionStack, m2⟩ from fun m2 => by simp [visitNode, hfn]]
      rw [ihts]
      by_cases hret : (ty == NodeType.ReturnStatement) = true
      · simp [infoAfterList, infoAfterTree, hfn, hret]
      · simp [infoAfterList, infoAfterTree, hfn, hret]

/-- Membership in the defaulted lookup unfolds to a successful lookup. -/
theorem mem_lookupD_iff (m : InfoMap) (g r : Nat) :
    r ∈ lookupD m g ↔ ∃ rs, lookupInfo m g = some rs ∧ r ∈ rs := by
  rcases h : lookupInfo m g with _ | rs <;> simp [lookupD, h]

/-- Lemma: `setInfo` never adds a recorded return. -/
theorem mem_lookupD_setInfo (m : InfoMap) (i g r : Nat)
    (h : r ∈ lookupD (setInfo m i) g) : r ∈ lookupD m g := by
  rw [lookupD, lookupInfo_setInfo] at h
  by_cases hgi : g = i
  · simp [hgi] at h
  · rw [if_neg hgi] at h
    exact h

/-- Every attribution targets the incoming nearest enclosing function or
a node of the forest. -/
theorem attsList_target (cs : List JsTree) :
    ∀ cur g r, (g, r) ∈ attsList cur cs →
      some g = cur ∨ g ∈ JsTree.nodeIdsList cs := by
  induction cs using listInd with
  | hnil => intro cur g r h; simp [attsList] at h
  | hcons i ty cs ts ihcs ihts =>
    intro cur g r h
    rw [show attsList cur (JsTree.node i ty cs :: ts)
        = attsTree cur (JsTree.node i ty cs) ++ attsList cur ts from rfl] at h
    rcases List.mem_append.mp h with h1 | h2
    · rw [show attsTree cur (JsTree.node i ty cs)
          = (if ty == NodeType.ReturnStatement then
               match cur with
               | some f => [(f, i)]
               | none => []
             else [])
            ++ attsList (if isFunctionNodeType ty then some i else cur) cs from rfl] at h1
      rcases List.mem_append.mp h1 with h3 | h4
      · by_cases hret : (ty == NodeType.ReturnStatement) = true
        · rcases cur with _ | f
          · simp [hret] at h3
          · simp [hret] at h3
            exact Or.inl (by simp [h3.1])
        · simp [hret] at h3
      · rcases ihcs _ g r h4 with h5 | h5
        · by_cases hfn : isFunctionNodeType ty = true
          · rw [hfn] at h5
            simp at h5
            exact Or.inr (by simp [JsTree.nodeIdsList, JsTree.nodeIds, h5])
          · rw [show isFunctionNodeType ty = false from by simpa using hfn] at h5
            simp at h5
            exact Or.inl h5
        · exact Or.inr (by
            simp [JsTree.nodeIdsList, JsTree.nodeIds]
            exact Or.inr (Or.inl h5))
    · rcases ihts cur g r h2 with h3 | h3
      · exact Or.inl h3
      · exact Or.inr (by
          simp [JsTree.nodeIdsList, JsTree.nodeIds]
          exact Or.inr (Or.inr h3))


/-- Alias of `mem_lookupD_setInfo` in disjunction-friendly form. -/
theorem mem_lookupD_setInfo_or (m : InfoMap) (i g r : Nat)
    (h : r ∈ lookupD (setInfo m i) g) : r ∈ lookupD m g :=
  mem_lookupD_setInfo m i g r h

/-- Soundness: every return recorded by replaying a forest was already
recorded or is an attribution of the forest. -/
theorem infoAfterList_sound (cs : List JsTree) :
    ∀ m cur g r, r ∈ lookupD (infoAfterList m cur cs) g →
      r ∈ lookupD m g ∨ (g, r) ∈ attsList cur cs := by
  induction cs using listInd with
  | hnil => intro m cur g r h; exact Or.inl h
  | hcons i ty cs ts ihcs ihts =>
    intro m cur g r h
    rw [show infoAfterList m cur (JsTree.node i ty cs :: ts)
        = infoAfterList (infoAfterTree m cur (JsTree.node i ty cs)) cur ts from rfl] at h
    rcases ihts _ cur g r h with h1 | h1
    · by_cases hret : (ty == NodeType.ReturnStatement) = true
      · have hty : ty = NodeType.ReturnStatement := by simpa using hret
        have hfn : isFunctionNodeType ty = false := by subst hty; decide
        rcases cur with _ | f
        · rw [show infoAfterTree m none (JsTree.node i ty cs)
              = infoAfterList m none cs from by
            simp [infoAfterTree, hret, hfn]] at h1
          rcases ihcs m none g r h1 with h2 | h2
          · exact Or.inl h2
          · exact Or.inr (by simp [attsList, attsTree, hret, hfn, h2])
        · rw [show infoAfterTree m (some f) (JsTree.node i ty cs)
              = infoAfterList (pushReturn m f i) (some f) cs from by
            simp [infoAfterTree, hret, hfn]] at h1
          rcases ihcs _ (some f) g r h1 with h2 | h2
          · rcases mem_lookupD_pushReturn m f i g r h2 with h3 | h3
            · exact Or.inl h3
            · exact Or.inr (by simp [attsList, attsTree, hret, hfn, h3.1, h3.2])
          · exact Or.inr (by simp [attsList, attsTree, hret, hfn, h2])
      · have hretf : (ty == NodeType.ReturnStatement) = false := by simpa using hret
        by_cases hfn : isFunctionNodeType ty = true
        · rw [show infoAfterTree m cur (JsTree.node i ty cs)
              = infoAfterList (setInfo m i) (some i) cs from by
            simp [infoAfterTree, hretf, hfn]] at h1
          rcases ihcs _ (some i) g r h1 with h2 | h2
          · exact Or.inl (mem_lookupD_setInfo_or m i g r h2)
          · exact Or.inr (by simp [attsList, attsTree, hretf, hfn, h2])
        · have hfnf : isFunctionNodeType ty = false := by simpa using hfn
          rw [show infoAfterTree m cur (JsTree.node i ty cs)
              = infoAfterList m cur cs from by
            simp [infoAfterTree, hretf, hfnf]] at h1
          rcases ihcs m cur g r h1 with h2 | h2
          · exact Or.inl h2
          · exact Or.inr (by simp [attsList, attsTree, hretf, hfnf, h2])
    · exact Or.inr (by
        rw [show attsList cur (JsTree.node i ty cs :: ts)
            = attsTree cur (JsTree.node i ty cs) ++ attsList cur ts from rfl]
        exact List.mem_append.mpr (Or.inr h1))

/-- Replaying a forest that does not contain a key never removes the
returns recorded under that key. -/
theorem infoAfterList_preserves_mem (cs : List JsTree) :
    ∀ m cur g r, r ∈ lookupD m g → g ∉ JsTree.nodeIdsList cs →
      r ∈ lookupD (infoAfterList m cur cs) g := by
  induction cs using listInd with
  | hnil => intro m cur g r h _; exact h
  | hcons i ty cs ts ihcs ihts =>
    intro m cur g r h hnot
    have hgi : ¬ g = i := by
      intro he
      exact hnot (by simp [JsTree.nodeIdsList, JsTree.nodeIds, he])
    have hgcs : g ∉ JsTree.nodeIdsList cs := by
      intro he
      exact hnot (by simp [JsTree.nodeIdsList, JsTree.nodeIds, he])
    have hgts : g ∉ JsTree.nodeIdsList ts := by
      intro he
      exact hnot (by simp [JsTree.nodeIdsList, JsTree.nodeIds, he])
    rw [show infoAfterList m cur (JsTree.node i ty cs :: ts)
        = infoAfterList (infoAfterTree m cur (JsTree.node i ty cs)) cur ts from rfl]
    refine ihts _ cur g r ?_ hgts
    by_cases hret : (ty == NodeType.ReturnStatement) = true
    · have hty : ty = NodeType.ReturnStatement := by simpa using hret
      have hfn : isFunctionNodeType ty = false := by subst hty; decide
      rcases cur with _ | f
      · rw [show infoAfterTree m none (JsTree.node i ty cs)
            = infoAfterList m none cs from by simp [infoAfterTree, hret, hfn]]
        exact ihcs m none g r h hgcs
      · rw [show infoAfterTree m (some f) (JsTree.node i ty cs)
            = infoAfterList (pushReturn m f i) (some f) cs from by
          simp [infoAfterTree, hret, hfn]]
        exact ihcs _ (some f) g r (mem_lookupD_pushReturn_mono m f i g r h) hgcs
    · have hretf : (ty == NodeType.ReturnStatement) = false := by simpa using hret
      by_cases hfn : isFunctionNodeType ty = true
      · rw [show infoAfterTree m cur (JsTree.node i ty cs)
            = infoAfterList (setInfo m i) (some i) cs from by
          simp [infoAfterTree, hretf, hfn]]
        refine ihcs _ (some i) g r ?_ hgcs
        rw [lookupD, lookupInfo_setInfo, if_neg hgi, ← lookupD]
        exact h
      · have hfnf : isFunctionNodeType ty = false := by simpa using hfn
        rw [show infoAfterTree m cur (JsTree.node i ty cs)
            = infoAfterList m cur cs from by simp [infoAfterTree, hretf, hfnf]]
        exact ihcs m cur g r h hgcs

/-- Replaying a forest keeps every existing key bound. -/
theorem infoAfterList_preserves_key (cs : List JsTree) :
    ∀ m cur g, lookupInfo m g ≠ none →
      lookupInfo (infoAfterList m cur cs) g ≠ none := by
  induction cs using listInd with
  | hnil => intro m cur g h; exact h
  | hcons i ty cs ts ihcs ihts =>
    intro m cur g h
    rw [show infoAfterList m cur (JsTree.node i ty cs :: ts)
        = infoAfterList (infoAfterTree m cur (JsTree.node i ty cs)) cur ts from rfl]
    refine ihts _ cur g ?_
    by_cases hret : (ty == NodeType.ReturnStatement) = true
    · have hty : ty = NodeType.ReturnStatement := by simpa using hret
      have hfn : isFunctionNodeType ty = false := by subst hty; decide
      rcases cur with _ | f
      · rw [show infoAfterTree m none (JsTree.node i ty cs)
            = infoAfterList m none cs from by simp [infoAfterTree, hret, hfn]]
        exact ihcs m none g h
      · rw [show infoAfterTree m (some f) (JsTree.node i ty cs)
            = infoAfterList (pushReturn m f i) (some f) cs from by
          simp [infoAfterTree, hret, hfn]]
        refine ihcs _ (some f) g ?_
        rw [Ne, lookupInfo_pushReturn_none_iff]
        exact h
    · have hretf : (ty == NodeType.ReturnStatement) = false := by simpa using hret
      by_cases hfn : isFunctionNodeType ty = true
      · rw [show infoAfterTree m cur (JsTree.node i ty cs)
            = infoAfterList (setInfo m i) (some i) cs from by
          simp [infoAfterTree, hretf, hfn]]
        refine ihcs _ (some i) g ?_
        rw [Ne, lookupInfo_setInfo]
        by_cases hgi : g = i <;> simp [hgi, h]
      · have hfnf : isFunctionNodeType ty = false := by simpa using hfn
        rw [show infoAfterTree m cur (JsTree.node i ty cs)
            = infoAfterList m cur cs from by simp [infoAfterTree, hretf, hfnf]]
        exact ihcs m cur g h

/-- Keys bound after replaying a forest were already bound or are node
identifiers of the forest. -/
theorem infoAfterList_key_bound (cs : List JsTree) :
    ∀ m cur g, lookupInfo (infoAfterList m cur cs) g ≠ none →
      lookupInfo m g ≠ none ∨ g ∈ JsTree.nodeIdsList cs := by
  induction cs using listInd with
  | hnil => intro m cur g h; exact Or.inl h
  | hcons i ty cs ts ihcs ihts =>
    intro m cur g h
    rw [show infoAfterList m cur (JsTree.node i ty cs :: ts)
        = infoAfterList (infoAfterTree m cur (JsTree.node i ty cs)) cur ts from rfl] at h
    rcases ihts _ cur g h with h1 | h1
    · by_cases hret : (ty == NodeType.ReturnStatement) = true
      · have hty : ty = NodeType.ReturnStatement := by simpa using hret
        have hfn : isFunctionNodeType ty = false := by subst hty; decide
        rcases cur with _ | f
        · rw [show infoAfterTree m none (JsTree.node i ty cs)
              = infoAfterList m none cs from by simp [infoAfterTree, hret, hfn]] at h1
          rcases ihcs m none g h1 with h2 | h2
          · exact Or.inl h2
          · exact Or.inr (by simp [JsTree.nodeIdsList, JsTree.nodeIds, h2])
        · rw [show infoAfterTree m (some f) (JsTree.node i ty cs)
              = infoAfterList (pushReturn m f i) (some f) cs from by
            simp [infoAfterTree, hret, hfn]] at h1
          rcases ihcs _ (some f) g h1 with h2 | h2
          · rw [Ne, lookupInfo_pushReturn_none_iff] at h2
            exact Or.inl h2
          · exact Or.inr (by simp [JsTree.nodeIdsList, JsTree.nodeIds, h2])
      · have hretf : (ty == NodeType.ReturnStatement) = false := by simpa using hret
        by_cases hfn : isFunctionNodeType ty = true
        · rw [show infoAfterTree m cur (JsTree.node i ty cs)
              = infoAfterList (setInfo m i) (some i) cs from by
            simp [infoAfterTree, hretf, hfn]] at h1
          rcases ihcs _ (some i) g h1 with h2 | h2
          · rw [Ne, lookupInfo_setInfo] at h2
            by_cases hgi : g = i
            · exact Or.inr (by simp [JsTree.nodeIdsList, JsTree.nodeIds, hgi])
            · rw [if_neg hgi] at h2
              exact Or.inl h2
          · exact Or.inr (by simp [JsTree.nodeIdsList, JsTree.nodeIds, h2])
        · have hfnf : isFunctionNodeType ty = false := by simpa using hfn
          rw [show infoAfterTree m cur (JsTree.node i ty cs)
              = infoAfterList m cur cs from by simp [infoAfterTree, hretf, hfnf]] at h1
          rcases ihcs m cur g h1 with h2 | h2
          · exact Or.inl h2
          · exact Or.inr (by simp [JsTree.nodeIdsList, JsTree.nodeIds, h2])
    · exact Or.inr (by simp [JsTree.nodeIdsList, JsTree.nodeIds, h1])

/-- Completeness: every attribution of a forest is recorded by replaying
it, provided node identifiers are distinct, the incoming nearest
enclosing function is already bound, and bound keys do not clash with
the forest's nodes. -/
theorem infoAfterList_complete (cs : List JsTree) :
    ∀ m cur g r, (g, r) ∈ attsList cur cs →
      (JsTree.nodeIdsList cs).Nodup →
      (∀ f, cur = some f → lookupInfo m f ≠ none) →
      (∀ k, lookupInfo m k ≠ none → k ∉ JsTree.nodeIdsList cs) →
      r ∈ lookupD (infoAfterList m cur cs) g := by
  induction cs using listInd with
  | hnil => intro m cur g r h _ _ _; simp [attsList] at h
  | hcons i ty cs ts ihcs ihts =>
    intro m cur g r hmem hnodup h3 h4
    have hids : JsTree.nodeIdsList (JsTree.node i ty cs :: ts)
        = i :: (JsTree.nodeIdsList cs ++ JsTree.nodeIdsList ts) := by
      simp [JsTree.nodeIdsList, JsTree.nodeIds]
    rw [hids] at hnodup
    have hii : i ∉ JsTree.nodeIdsList cs ++ JsTree.nodeIdsList ts :=
      (List.nodup_cons.mp hnodup).1
    have hii_cs : i ∉ JsTree.nodeIdsList cs := fun h => hii (List.mem_append.mpr (Or.inl h))
    have hii_ts : i ∉ JsTree.nodeIdsList ts := fun h => hii (List.mem_append.mpr (Or.inr h))
    have hrest := (List.nodup_cons.mp hnodup).2
    have hnodup_cs : (JsTree.nodeIdsList cs).Nodup := (List.nodup_append.mp hrest).1
    have hnodup_ts : (JsTree.nodeIdsList ts).Nodup := (List.nodup_append.mp hrest).2.1
    have hdisj : ∀ x, x ∈ JsTree.nodeIdsList cs → x ∉ JsTree.nodeIdsList ts :=
      fun x hx => (List.nodup_append.mp hrest).2.2 hx
    have h4t : ∀ k, lookupInfo m k ≠ none → k ∉ JsTree.nodeIdsList (JsTree.node i ty cs :: ts) :=
      h4
    have h4cs : ∀ k, lookupInfo m k ≠ none → k ∉ JsTree.nodeIdsList cs := by
      intro k hk hkin
      exact h4 k hk (by rw [hids]; exact List.mem_cons_of_mem _ (List.mem_append.mpr (Or.inl hkin)))
    have h4ts : ∀ k, lookupInfo m k ≠ none → k ∉ JsTree.nodeIdsList ts := by
      intro k hk hkin
      exact h4 k hk (by rw [hids]; exact List.mem_cons_of_mem _ (List.mem_append.mpr (Or.inr hkin)))
    have h4i : ∀ k, lookupInfo m k ≠ none → k ≠ i := by
      intro k hk hkin
      exact h4 k hk (by rw [hids, hkin]; exact List.mem_cons_self _ _)
    rw [show infoAfterList m cur (JsTree.node i ty cs :: ts)
        = infoAfterList (infoAfterTree m cur (JsTree.node i ty cs)) cur ts from rfl]
    rw [show attsList cur (JsTree.node i ty cs :: ts)
        = attsTree cur (JsTree.node i ty cs) ++ attsList cur ts from rfl] at hmem
    rcases List.mem_append.mp hmem with hA | hB
    case inr =>
      refine ihts _ cur g r hB hnodup_ts ?_ ?_
      · intro f hf
        exact infoAfterList_preserves_key [JsTree.node i ty cs] m cur f (h3 f hf)
      · intro k hk
        rcases infoAfterList_key_bound [JsTree.node i ty cs] m cur k hk with h5 | h5
        · exact h4ts k h5
        · have h6 : k ∈ JsTree.nodeIds (JsTree.node i ty cs) := by
            simpa [JsTree.nodeIdsList] using h5
          have h7 : k = i ∨ k ∈ JsTree.nodeIdsList cs := by
            simpa [JsTree.nodeIds] using h6
          rcases h7 with rfl | h7
          · exact hii_ts
          · exact hdisj k h7
    case inl =>
      have hgts : g ∉ JsTree.nodeIdsList ts := by
        have htarget := attsList_target [JsTree.node i ty cs] cur g r
          (by
            rw [show attsList cur [JsTree.node i ty cs]
                = attsTree cur (JsTree.node i ty cs) ++ attsList cur [] from rfl]
            exact List.mem_append.mpr (Or.inl hA))
        rcases htarget with h5 | h5
        · have h6 := h3 g h5.symm
          exact h4ts g h6
        · have h6 : g = i ∨ g ∈ JsTree.nodeIdsList cs := by
            simpa [JsTree.nodeIdsList, JsTree.nodeIds] using h5
          rcases h6 with rfl | h6
          · exact hii_ts
          · exact hdisj g h6
      refine infoAfterList_preserves_mem ts _ cur g r ?_ hgts
      by_cases hret : (ty == NodeType.ReturnStatement) = true
      · have hty : ty = NodeType.ReturnStatement := by simpa using hret
        have hfn : isFunctionNodeType ty = false := by subst hty; decide
        rcases cur with _ | f
        · rw [show infoAfterTree m none (JsTree.node i ty cs)
              = infoAfterList m none cs from by simp [infoAfterTree, hret, hfn]]
          have hA2 : (g, r) ∈ attsList none cs := by
            simpa [attsTree, hret, hfn] using hA
          exact ihcs m none g r hA2 hnodup_cs (by intro f hf; cases hf) h4cs
        · rw [show infoAfterTree m (some f) (JsTree.node i ty cs)
              = infoAfterList (pushReturn m f i) (some f) cs from by
            simp [infoAfterTree, hret, hfn]]
          have hA2 : (g, r) = (f, i) ∨ (g, r) ∈ attsList (some f) cs := by
            simpa [attsTree, hret, hfn] using hA
          rcases hA2 with heq | hA3
          · have hg : g = f := by injection heq with h1 h2
            have hr : r = i := by injection heq with h1 h2
            subst hg
            subst hr
            have hpres := h3 g rfl
            rcases hl : lookupInfo m g with _ | rs
            · exact absurd hl hpres
            · have hpush : r ∈ lookupD (pushReturn m g r) g := by
                rw [lookupD, lookupInfo_pushReturn_self m g r rs hl]
                simp
              refine infoAfterList_preserves_mem cs _ (some g) g r hpush ?_
              exact h4cs g hpres
          · refine ihcs _ (some f) g r hA3 hnodup_cs ?_ ?_
            · intro f2 hf2
              injection hf2 with hf2
              subst hf2
              rw [Ne, lookupInfo_pushReturn_none_iff]
              exact h3 _ rfl
            · intro k hk
              rw [Ne, lookupInfo_pushReturn_none_iff] at hk
              exact h4cs k hk
      · have hretf : (ty == NodeType.ReturnStatement) = false := by simpa using hret
        by_cases hfn : isFunctionNodeType ty = true
        · rw [show infoAfterTree m cur (JsTree.node i ty cs)
              = infoAfterList (setInfo m i) (some i) cs from by
            simp [infoAfterTree, hretf, hfn]]
          have hA2 : (g, r) ∈ attsList (some i) cs := by
            simpa [attsTree, hretf, hfn] using hA
          refine ihcs _ (some i) g r hA2 hnodup_cs ?_ ?_
          · intro f2 hf2
            injection hf2 with hf2
            subst hf2
            rw [Ne, lookupInfo_setInfo]
            simp
          · intro k hk
            rw [Ne, lookupInfo_setInfo] at hk
            by_cases hki : k = i
            · subst hki
              exact hii_cs
            · rw [if_neg hki] at hk
              exact h4cs k hk
        · have hfnf : isFunctionNodeType ty = false := by simpa using hfn
          rw [show infoAfterTree m cur (JsTree.node i ty cs)
              = infoAfterList m cur cs from by simp [infoAfterTree, hretf, hfnf]]
          have hA2 : (g, r) ∈ attsList cur cs := by
            simpa [attsTree, hretf, hfnf] using hA
          exact ihcs m cur g r hA2 hnodup_cs h3 h4cs

/-- The return components of a forest's attributions form a sublist of
its node identifiers in document order. -/
theorem attsList_snd_sublist (cs : List JsTree) :
    ∀ cur, ((attsList cur cs).map Prod.snd).Sublist (JsTree.nodeIdsList cs) := by
  induction cs using listInd with
  | hnil => intro cur; simp [attsList, JsTree.nodeIdsList]
  | hcons i ty cs ts ihcs ihts =>
    intro cur
    have h1 : ((attsTree cur (JsTree.node i ty cs)).map Prod.snd).Sublist
        (JsTree.nodeIds (JsTree.node i ty cs)) := by
      by_cases hret : (ty == NodeType.ReturnStatement) = true
      · rcases cur with _ | f
        · rw [show attsTree none (JsTree.node i ty cs)
              = attsList (if isFunctionNodeType ty then some i else none) cs from by
            simp [attsTree, hret]]
          rw [show JsTree.nodeIds (JsTree.node i ty cs)
              = i :: JsTree.nodeIdsList cs from rfl]
          exact (ihcs _).cons i
        · rw [show attsTree (some f) (JsTree.node i ty cs)
              = (f, i) :: attsList (if isFunctionNodeType ty then some i else some f) cs
              from by simp [attsTree, hret]]
          rw [show JsTree.nodeIds (JsTree.node i ty cs)
              = i :: JsTree.nodeIdsList cs from rfl]
          rw [List.map_cons]
          exact (ihcs _).cons₂ i
      · rw [show attsTree cur (JsTree.node i ty cs)
            = attsList (if isFunctionNodeType ty then some i else cur) cs from by
          simp [attsTree, hret]]
        rw [show JsTree.nodeIds (JsTree.node i ty cs)
            = i :: JsTree.nodeIdsList cs from rfl]
        exact (ihcs _).cons i
    rw [show attsList cur (JsTree.node i ty cs :: ts)
        = attsTree cur (JsTree.node i ty cs) ++ attsList cur ts from rfl]
    rw [show JsTree.nodeIdsList (JsTree.node i ty cs :: ts)
        = JsTree.nodeIds (JsTree.node i ty cs) ++ JsTree.nodeIdsList ts from rfl]
    rw [List.map_append]
    exact h1.append (ihts cur)

/-- The enter events of a forest's traversal list exactly its node
identifiers in document (preorder) order. -/
theorem eventsList_enters (cs : List JsTree) :
    (JsTree.eventsList cs).filterMap enterId = JsTree.nodeIdsList cs := by
  induction cs using listInd with
  | hnil => simp [JsTree.eventsList, JsTree.nodeIdsList]
  | hcons i ty cs ts ihcs ihts =>
    rw [show JsTree.eventsList (JsTree.node i ty cs :: ts)
        = (TraversalEvent.enter i ty
            :: (JsTree.eventsList cs ++ [TraversalEvent.exit i ty]))
          ++ JsTree.eventsList ts from by simp [JsTree.eventsList, JsTree.events]]
    rw [show JsTree.nodeIdsList (JsTree.node i ty cs :: ts)
        = (i :: JsTree.nodeIdsList cs) ++ JsTree.nodeIdsList ts from by
      simp [JsTree.nodeIdsList, JsTree.nodeIds]]
    simp [List.filterMap_append, List.filterMap_cons, enterId, ihcs, ihts]

/-- C9: running the traversal handlers over a file whose nodes have
distinct identifiers records every return statement exactly in the
metadata of its immediately enclosing function (`attsTree none t` is
the by-construction attribution of each return statement to its nearest
enclosing function): every attributed pair is recorded, everything
recorded is an attributed pair, a return statement is attributed to at
most one function, and the traversal enters each node exactly once in
document (preorder) order. -/
theorem traversal_records_returns_in_nearest_function (t : JsTree)
    (hids : (JsTree.nodeIds t).Nodup) :
    (∀ f r, (f, r) ∈ attsTree none t →
      ∃ rs, lookupInfo (runRule t).functionInfo f = some rs ∧ r ∈ rs)
    ∧ (∀ g rs r, lookupInfo (runRule t).functionInfo g = some rs → r ∈ rs →
        (g, r) ∈ attsTree none t)
    ∧ (∀ f g r, (f, r) ∈ attsTree none t → (g, r) ∈ attsTree none t → f = g)
    ∧ (JsTree.events t).filterMap enterId = JsTree.nodeIds t := by
  have hrun : (runRule t).functionInfo = infoAfterTree [] none t := by
    rw [runRule]
    rw [show JsTree.events t = JsTree.eventsList [t] from by simp [JsTree.eventsList]]
    rw [foldl_eventsList]
    rfl
  have hids1 : (JsTree.nodeIdsList [t]).Nodup := by
    simpa [JsTree.nodeIdsList] using hids
  refine ⟨?_, ?_, ?_, ?_⟩
  · intro f r hmem
    have hmem1 : (f, r) ∈ attsList none [t] := by
      rw [show attsList none [t] = attsTree none t ++ attsList none [] from rfl]
      exact List.mem_append.mpr (Or.inl hmem)
    have h := infoAfterList_complete [t] [] none f r hmem1 hids1
      (by intro f2 hf2; cases hf2) (by intro k hk; simp [lookupInfo] at hk)
    rw [hrun]
    exact (mem_lookupD_iff _ f r).mp h
  · intro g rs r hl hr
    have hmem : r ∈ lookupD (infoAfterTree [] none t) g := by
      rw [lookupD, ← hrun, hl]
      simpa using hr
    have h := infoAfterList_sound [t] [] none g r hmem
    rcases h with h | h
    · simp [lookupD, lookupInfo] at h
    · rw [show attsList none [t] = attsTree none t ++ attsList none [] from rfl] at h
      simpa [attsList] using h
  · intro f g r hf hg
    have hnodup_snd : ((attsList none [t]).map Prod.snd).Nodup :=
      List.Nodup.sublist (attsList_snd_sublist [t] none) hids1
    have h1 : (f, r) ∈ attsList none [t] := by
      rw [show attsList none [t] = attsTree none t ++ attsList none [] from rfl]
      exact List.mem_append.mpr (Or.inl hf)
    have h2 : (g, r) ∈ attsList none [t] := by
      rw [show attsList none [t] = attsTree none t ++ attsList none [] from rfl]
      exact List.mem_append.mpr (Or.inl hg)
    have h3 : (f, r) = (g, r) := List.inj_on_of_nodup_map hnodup_snd h1 h2 rfl
    exact congrArg Prod.fst h3
  · have h := eventsList_enters [t]
    rw [show JsTree.eventsList [t] = JsTree.events t ++ [] from by
      simp [JsTree.eventsList]] at h
    rw [show JsTree.nodeIdsList [t] = JsTree.nodeIds t ++ [] from by
      simp [JsTree.nodeIdsList]] at h
    simpa using h

/-- Witness for C9: in the sample tree the return statement 3 is recorded
in the metadata of its immediately enclosing function 1 (not the nested
function 4), and the nested return 6 belongs to function 4. -/
theorem traversal_records_returns_witness :
    (JsTree.nodeIds sampleTree).Nodup
    ∧ (1, 3) ∈ attsTree none sampleTree
    ∧ (∃ rs, lookupInfo (runRule sampleTree).functionInfo 1 = some rs ∧ 3 ∈ rs)
    ∧ (∃ rs, lookupInfo (runRule sampleTree).functionInfo 4 = some rs ∧ 6 ∈ rs) := by
  have h := traversal_records_returns_in_nearest_function sampleTree (by decide)
  exact ⟨by decide, by decide, h.1 1 3 (by decide), h.1 4 6 (by decide)⟩

end NoArrayForEach
